import Mathlib

/-!
Formal verification of the core of a Texas Hold'em poker simulator.

The development shallowly embeds the TypeScript sources:
* the hand evaluator (`createDeck`, `shuffleDeck`, `evaluateHand`),
* the betting-round engine and hand lifecycle
  (`startNewHand`, `handleAction`, `advanceTurn`, `nextStreet`, `determineWinner`),
* the AI-decision sanitizer in `getAIDecision`.

Conventions of the embedding:
* JavaScript numbers holding chip amounts are modelled as `Int`
  (all the arithmetic performed on them is exact integer arithmetic);
  card values are `Nat` (always 2..14 by construction).
* The deck is a `List Card` whose head is the top of the deck
  (the end of the JavaScript array, which `deck.pop()` consumes).
* `Array.prototype.sort` (stable in modern engines) is modelled by
  `List.insertionSort`, which is stable.
* Fallible array accesses (`xs[i]` beyond the end, non-null assertions)
  are modelled with `Option`: a function returns `none` exactly when the
  JavaScript code would access a missing element and crash.
* Loops with no structural bound (`while (... ) idx = (idx+1) % 8`) are
  modelled with an explicit fuel of 8; the fuel suffices whenever the
  loop's JavaScript counterpart terminates.
-/

/-! ## Card model (types.ts and utils/pokerLogic.ts) -/

inductive Suit where
  | hearts
  | diamonds
  | clubs
  | spades
deriving DecidableEq, Repr

structure Card where
  suit : Suit
  rank : String
  value : Nat
deriving DecidableEq, Repr

structure HandRank where
  rank : Nat
  name : String
  score : Nat
deriving DecidableEq, Repr

def SUITS : List Suit := [.hearts, .diamonds, .clubs, .spades]

def RANKS : List String :=
  ["2", "3", "4", "5", "6", "7", "8", "9", "10", "J", "Q", "K", "A"]

/-- `createDeck` from the source: every (suit, rank) pair, value = index + 2. -/
def createDeck : List Card :=
  (SUITS.map (fun suit =>
    RANKS.enum.map (fun p => { suit := suit, rank := p.2, value := p.1 + 2 }))).flatten

/-! ### Sorting relations

The source sorts cards with the comparator `(a, b) => b.value - a.value`
(descending by value) and numeric keys ascending or descending. -/

def byValueDesc (a b : Card) : Prop := b.value ≤ a.value

instance : DecidableRel byValueDesc := fun a b =>
  inferInstanceAs (Decidable (b.value ≤ a.value))

instance : IsTotal Card byValueDesc :=
  ⟨fun a b => (Nat.le_total b.value a.value).imp id id⟩

instance : IsTrans Card byValueDesc :=
  ⟨fun _ _ _ hab hbc => Nat.le_trans hbc hab⟩

def natDesc (a b : Nat) : Prop := b ≤ a

instance : DecidableRel natDesc := fun a b =>
  inferInstanceAs (Decidable (b ≤ a))

instance : IsTotal Nat natDesc :=
  ⟨fun a b => (Nat.le_total b a).imp id id⟩

instance : IsTrans Nat natDesc :=
  ⟨fun _ _ _ hab hbc => Nat.le_trans hbc hab⟩

/-! ## Hand evaluator (`evaluateHand` in utils/pokerLogic.ts) -/

def suitCount (cards : List Card) (s : Suit) : Nat :=
  (cards.filter (fun c => c.suit == s)).length

/-- `isFlush` from the source: suit tallies are consulted in the fixed
object-key order hearts, diamonds, clubs, spades; the first suit holding at
least five cards is returned. -/
def isFlush (cards : List Card) : Option Suit :=
  if 5 ≤ suitCount cards .hearts then some .hearts
  else if 5 ≤ suitCount cards .diamonds then some .diamonds
  else if 5 ≤ suitCount cards .clubs then some .clubs
  else if 5 ≤ suitCount cards .spades then some .spades
  else none

/-- The window scan inside `isStraight`: over a descending list of distinct
values, find the first suffix whose first and fifth entries differ by 4
(`slice[0] - slice[4] === 4` on exact integers is `slice[0] = slice[4] + 4`). -/
def straightScan : List Nat → Option Nat
  | [] => none
  | a :: rest =>
    if 4 ≤ rest.length then
      if a = rest.getD 3 0 + 4 then some a else straightScan rest
    else none

/-- Distinct card values sorted descending
(`Array.from(new Set(...)).sort((a, b) => b - a)`). -/
def uniqueValuesDesc (cards : List Card) : List Nat :=
  ((cards.map (fun c => c.value)).dedup).insertionSort natDesc

/-- `isStraight` from the source, including the ace-low extension
(append 1 when an ace is present). -/
def isStraight (cards : List Card) : Option Nat :=
  let uniq := uniqueValuesDesc cards
  straightScan (if uniq.contains 14 then uniq ++ [1] else uniq)

/-- Occurrences of a value among the cards (the `counts` record). -/
def countValue (cards : List Card) (v : Nat) : Nat :=
  (cards.filter (fun c => c.value == v)).length

/-- `Object.keys(counts)`: the distinct values in ascending numeric order
(integer-like keys enumerate ascending in JavaScript). -/
def valueKeysAsc (cards : List Card) : List Nat :=
  ((cards.map (fun c => c.value)).dedup).insertionSort (fun a b => a ≤ b)

/-- The reduce pattern `acc + c.value * 15 ** (p - i)` weighting successive
cards by decreasing powers of 15, starting at exponent `p`. -/
def weightedScore : Nat → List Card → Nat
  | _, [] => 0
  | p, c :: rest => c.value * 15 ^ p + weightedScore (p - 1) rest

/-- Core of `evaluateHand`, operating on the merged and descending-sorted
cards.  Returns `none` exactly where the JavaScript code would crash: the
three-of-a-kind branch reads `kickers[0].value` and `kickers[1].value`
without checking that two kickers exist. -/
def evalCards (cards : List Card) : Option HandRank :=
  let flushSuit := isFlush cards
  let flushCards := match flushSuit with
    | some s => cards.filter (fun c => c.suit == s)
    | none => []
  let straightHigh := isStraight cards
  let straightFlushHigh := match flushSuit with
    | some _ => isStraight flushCards
    | none => none
  let keys := valueKeysAsc cards
  let fourOfAKind := keys.find? (fun v => countValue cards v == 4)
  let threeOfAKind := (keys.filter (fun v => countValue cards v == 3)).insertionSort natDesc
  let pairs := (keys.filter (fun v => countValue cards v == 2)).insertionSort natDesc
  match straightFlushHigh with
  | some sfHigh => some { rank := 8, name := "Straight Flush", score := 8000000 + sfHigh }
  | none =>
  match fourOfAKind with
  | some quad =>
    let kicker := match cards.find? (fun c => c.value != quad) with
      | some c => c.value
      | none => 0
    some { rank := 7, name := "Four of a Kind", score := 7000000 + quad * 100 + kicker }
  | none =>
  if 0 < threeOfAKind.length ∧ (1 < threeOfAKind.length ∨ 0 < pairs.length) then
    let trip := threeOfAKind.headD 0
    let pairVal := if 1 < threeOfAKind.length then threeOfAKind.getD 1 0 else pairs.headD 0
    some { rank := 6, name := "Full House", score := 6000000 + trip * 100 + pairVal }
  else
  match flushSuit with
  | some _ =>
    some { rank := 5, name := "Flush", score := 5000000 + weightedScore 4 (flushCards.take 5) }
  | none =>
  match straightHigh with
  | some high => some { rank := 4, name := "Straight", score := 4000000 + high }
  | none =>
  if 0 < threeOfAKind.length then
    let trip := threeOfAKind.headD 0
    match (cards.filter (fun c => c.value != trip)).take 2 with
    | k0 :: k1 :: _ =>
      some { rank := 3, name := "Three of a Kind",
             score := 3000000 + trip * 1000 + k0.value * 15 + k1.value }
    | _ => none
  else if 2 ≤ pairs.length then
    let p1 := pairs.getD 0 0
    let p2 := pairs.getD 1 0
    let kicker := match cards.find? (fun c => c.value != p1 && c.value != p2) with
      | some c => c.value
      | none => 0
    some { rank := 2, name := "Two Pair", score := 2000000 + p1 * 200 + p2 * 15 + kicker }
  else if 0 < pairs.length then
    let p1 := pairs.getD 0 0
    some { rank := 1, name := "Pair",
           score := 1000000 + p1 * 5000 +
             weightedScore 2 ((cards.filter (fun c => c.value != p1)).take 3) }
  else
    some { rank := 0, name := "High Card", score := weightedScore 4 (cards.take 5) }

/-- `evaluateHand(holeCards, communityCards)`: merge, sort descending by
value, then classify. -/
def evaluateHand (holeCards communityCards : List Card) : Option HandRank :=
  evalCards ((holeCards ++ communityCards).insertionSort byValueDesc)

/-! ## Spec-side hand strength (for the evaluator-ordering claim)

`specCardsKey` follows the wording of spec section 4.2: merge and sort
descending (step 1), detect flush / straight / straight-flush (steps 2-4),
count occurrences per value (step 5), pick the first matching category in
the precedence order of step 6, and record the category ordinal together
with the deciding value(s) and kicker(s) in significance order.  Two hands
compare by category first and then lexicographically on those deciding
values; the evaluator's integer score must realise exactly this order
(step 7). -/
def specCardsKey (cards : List Card) : Option (Nat × List Nat) :=
  let flushSuit := isFlush cards
  let flushCards := match flushSuit with
    | some s => cards.filter (fun c => c.suit == s)
    | none => []
  let straightHigh := isStraight cards
  let straightFlushHigh := match flushSuit with
    | some _ => isStraight flushCards
    | none => none
  let keys := valueKeysAsc cards
  let fourOfAKind := keys.find? (fun v => countValue cards v == 4)
  let threeOfAKind := (keys.filter (fun v => countValue cards v == 3)).insertionSort natDesc
  let pairs := (keys.filter (fun v => countValue cards v == 2)).insertionSort natDesc
  match straightFlushHigh with
  | some sfHigh => some (8, [sfHigh])
  | none =>
  match fourOfAKind with
  | some quad =>
    let kicker := match cards.find? (fun c => c.value != quad) with
      | some c => c.value
      | none => 0
    some (7, [quad, kicker])
  | none =>
  if 0 < threeOfAKind.length ∧ (1 < threeOfAKind.length ∨ 0 < pairs.length) then
    let trip := threeOfAKind.headD 0
    let pairVal := if 1 < threeOfAKind.length then threeOfAKind.getD 1 0 else pairs.headD 0
    some (6, [trip, pairVal])
  else
  match flushSuit with
  | some _ => some (5, (flushCards.take 5).map (fun c => c.value))
  | none =>
  match straightHigh with
  | some high => some (4, [high])
  | none =>
  if 0 < threeOfAKind.length then
    let trip := threeOfAKind.headD 0
    match (cards.filter (fun c => c.value != trip)).take 2 with
    | k0 :: k1 :: _ => some (3, [trip, k0.value, k1.value])
    | _ => none
  else if 2 ≤ pairs.length then
    let p1 := pairs.getD 0 0
    let p2 := pairs.getD 1 0
    let kicker := match cards.find? (fun c => c.value != p1 && c.value != p2) with
      | some c => c.value
      | none => 0
    some (2, [p1, p2, kicker])
  else if 0 < pairs.length then
    let p1 := pairs.getD 0 0
    some (1, p1 :: (((cards.filter (fun c => c.value != p1)).take 3).map (fun c => c.value)))
  else
    some (0, (cards.take 5).map (fun c => c.value))

/-- The category-and-deciding-values key of a hand, per spec section 4.2. -/
def specHandKey (holeCards communityCards : List Card) : Option (Nat × List Nat) :=
  specCardsKey ((holeCards ++ communityCards).insertionSort byValueDesc)

/-- Strict lexicographic comparison of equal-significance value lists. -/
def lexLtVals : List Nat → List Nat → Bool
  | [], [] => false
  | [], _ :: _ => true
  | _ :: _, [] => false
  | a :: as, b :: bs => a < b || (a == b && lexLtVals as bs)

/-- "Hand with key `x` is strictly weaker than hand with key `y`" under the
category-then-kickers rules of spec section 4.2. -/
def specKeyLt (x y : Nat × List Nat) : Prop :=
  x.1 < y.1 ∨ (x.1 = y.1 ∧ lexLtVals x.2 y.2 = true)

/-- `weightedScore` on bare values. -/
def weightedVals : Nat → List Nat → Nat
  | _, [] => 0
  | p, v :: rest => v * 15 ^ p + weightedVals (p - 1) rest

/-- The integer score the evaluator assigns to each category key. -/
def encKey : Nat × List Nat → Nat
  | (8, [h]) => 8000000 + h
  | (7, [q, k]) => 7000000 + q * 100 + k
  | (6, [t, p]) => 6000000 + t * 100 + p
  | (5, vs) => 5000000 + weightedVals 4 vs
  | (4, [h]) => 4000000 + h
  | (3, [t, k0, k1]) => 3000000 + t * 1000 + k0 * 15 + k1
  | (2, [p1, p2, k]) => 2000000 + p1 * 200 + p2 * 15 + k
  | (1, p :: ks) => 1000000 + p * 5000 + weightedVals 2 ks
  | (0, vs) => weightedVals 4 vs
  | _ => 0

/-- Number of deciding values recorded for each category. -/
def keyArity : Nat → Nat
  | 8 => 1
  | 7 => 2
  | 6 => 2
  | 5 => 5
  | 4 => 1
  | 3 => 3
  | 2 => 3
  | 1 => 4
  | 0 => 5
  | _ => 0

/-- Well-formedness of a category key produced from a real 7-card hand:
category in range, the expected number of deciding values, every deciding
value at most 14, and for two pair the two pair values are distinct card
values in descending order. -/
def GoodKey (k : Nat × List Nat) : Prop :=
  k.1 ≤ 8 ∧ k.2.length = keyArity k.1 ∧ (∀ v ∈ k.2, v ≤ 14) ∧
    (k.1 = 2 → match k.2 with
      | p1 :: p2 :: _ => 2 ≤ p2 ∧ p2 < p1
      | _ => True)

/-! ## Game state model (types.ts) -/

inductive PlayerStatus where
  | active
  | folded
  | allIn
  | bust
  | spectator
deriving DecidableEq, Repr

structure Player where
  id : Nat
  name : String
  isHuman : Bool
  chips : Int
  hand : List Card
  currentBet : Int
  status : PlayerStatus
  lastAction : Option String
  totalInvested : Int
deriving DecidableEq, Repr

inductive GameStage where
  | preflop
  | flop
  | turn
  | river
  | showdown
  | gameOver
deriving DecidableEq, Repr

inductive GameMode where
  | online
  | offline
deriving DecidableEq, Repr

structure Winner where
  ids : List Nat
  description : String
  amount : Int
deriving DecidableEq, Repr

structure GameState where
  players : List Player
  pot : Int
  communityCards : List Card
  deck : List Card
  dealerIndex : Nat
  currentPlayerIndex : Nat
  currentBet : Int
  minRaise : Int
  lastAggressorIndex : Option Nat
  stage : GameStage
  winners : List Winner
  logs : List String
  isThinking : Bool
  gameMode : GameMode
deriving DecidableEq, Repr

inductive PlayerAction where
  | check
  | call
  | fold
  | raise
deriving DecidableEq, Repr

def defaultCard : Card := { suit := .hearts, rank := "2", value := 2 }

def defaultPlayer : Player :=
  { id := 0, name := "", isHuman := false, chips := 0, hand := [], currentBet := 0,
    status := .spectator, lastAction := none, totalInvested := 0 }

def defaultWinner : Winner := { ids := [], description := "", amount := 0 }

def SB_AMOUNT : Int := 5

def BB_AMOUNT : Int := 10

/-! ## Showdown resolution (`determineWinner`) -/

structure ScoredPlayer where
  id : Nat
  name : String
  handRank : HandRank
deriving DecidableEq, Repr

def byScoreDesc (a b : ScoredPlayer) : Prop := b.handRank.score ≤ a.handRank.score

instance : DecidableRel byScoreDesc := fun a b =>
  inferInstanceAs (Decidable (b.handRank.score ≤ a.handRank.score))

instance : IsTotal ScoredPlayer byScoreDesc :=
  ⟨fun a b => (Nat.le_total b.handRank.score a.handRank.score).imp id id⟩

instance : IsTrans ScoredPlayer byScoreDesc :=
  ⟨fun _ _ _ hab hbc => Nat.le_trans hbc hab⟩

/-- The seats contesting the pot: not folded, not spectator, not bust. -/
def notFoldedOf (players : List Player) : List Player :=
  players.filter (fun p =>
    p.status != .folded && p.status != .spectator && p.status != .bust)

/-- The chip-distribution epilogue of `determineWinner`: each player whose id
appears in a winner record gains that record's amount; pot is zeroed and the
stage becomes game-over. -/
def distributePot (state : GameState) (winners : List Winner) : GameState :=
  let updatedPlayers := state.players.map (fun p =>
    match winners.find? (fun w => w.ids.contains p.id) with
    | some winInfo => { p with chips := p.chips + winInfo.amount }
    | none => p)
  { state with
    players := updatedPlayers
    stage := .gameOver
    winners := winners
    pot := 0
    logs := state.logs ++ ["Winner: " ++ (winners.headD defaultWinner).description] }

/-- The `scoredPlayers` construction of `determineWinner`: evaluate every
contending seat's hand against the board.  `none` exactly when one of the
`evaluateHand` calls crashes. -/
def scoreSeats (comm : List Card) : List Player → Option (List ScoredPlayer)
  | [] => some []
  | p :: ps =>
    match evaluateHand p.hand comm with
    | none => none
    | some hr =>
      match scoreSeats comm ps with
      | none => none
      | some rest => some ({ id := p.id, name := p.name, handRank := hr } :: rest)

/-- `determineWinner` from the source.  Returns `none` exactly where the
JavaScript code would crash: reading `notFolded[0]` of an empty list, or
evaluating a hand on which `evaluateHand` itself crashes. -/
def determineWinner (state : GameState) (byFold : Bool) : Option GameState :=
  let notFolded := notFoldedOf state.players
  if byFold ∨ notFolded.length = 1 then
    match notFolded.head? with
    | none => none
    | some w =>
      some (distributePot state
        [{ ids := [w.id], description := w.name ++ " wins by fold", amount := state.pot }])
  else
    match scoreSeats state.communityCards notFolded with
    | none => none
    | some scoredPlayers =>
      let sorted := scoredPlayers.insertionSort byScoreDesc
      match sorted.head? with
      | none => none
      | some top =>
        let bestScore := top.handRank.score
        let tyingWinners := sorted.filter (fun p => p.handRank.score == bestScore)
        let winAmount := Int.fdiv state.pot (tyingWinners.length : Int)
        some (distributePot state
          [{ ids := tyingWinners.map (fun w => w.id),
             description := String.intercalate ", " (tyingWinners.map (fun w => w.name)) ++
               " with " ++ (tyingWinners.headD top).handRank.name,
             amount := winAmount }])

/-! ## Street advancement (`nextStreet`) -/

def stageName : GameStage → String
  | .preflop => "PREFLOP"
  | .flop => "FLOP"
  | .turn => "TURN"
  | .river => "RIVER"
  | .showdown => "SHOWDOWN"
  | .gameOver => "GAMEOVER"

/-- The `while (status !== 'active')` scan for the first actor of a new
street, with its in-loop `break` when fewer than two seats are active.
Fuel 8 covers every terminating run of the JavaScript loop. -/
def firstActorLoop (players : List Player) (idx : Nat) : Nat → Nat
  | 0 => idx
  | fuel + 1 =>
    if (players.getD idx defaultPlayer).status = .active then idx
    else
      let idx2 := (idx + 1) % 8
      if (players.filter (fun p => p.status == .active)).length < 2 then idx2
      else firstActorLoop players idx2 fuel

/-- `nextStreet` from the source: reset street bets, burn and reveal
community cards, reset the table bet and minimum raise; at the river,
resolve the showdown instead. -/
def nextStreet (state : GameState) : Option GameState :=
  let playersReset := state.players.map (fun p =>
    { p with
      currentBet := 0
      lastAction := if p.status = .active then none else p.lastAction })
  match state.stage with
  | .river => determineWinner { state with players := playersReset, stage := .showdown } false
  | stage =>
    let next : GameStage × List Card × List Card :=
      match stage with
      | .preflop => (.flop, (state.deck.tail).drop 3, state.communityCards ++ (state.deck.tail).take 3)
      | .flop => (.turn, (state.deck.tail).drop 1, state.communityCards ++ (state.deck.tail).take 1)
      | .turn => (.river, (state.deck.tail).drop 1, state.communityCards ++ (state.deck.tail).take 1)
      | s => (s, state.deck, state.communityCards)
    let firstActor := firstActorLoop playersReset ((state.dealerIndex + 1) % 8) 8
    some { state with
      players := playersReset
      stage := next.1
      communityCards := next.2.2
      deck := next.2.1
      currentPlayerIndex := firstActor
      currentBet := 0
      minRaise := BB_AMOUNT
      logs := state.logs ++ ["--- " ++ stageName next.1 ++ " ---"] }

/-! ## Turn advancement (`advanceTurn`) -/

/-- The bounded scan for the next active seat in `advanceTurn`: advance
while the seat is not active and fewer than 8 steps were taken, returning
the final index and the number of steps. -/
def advanceLoop (players : List Player) (idx cnt : Nat) : Nat × Nat :=
  if h : (players.getD idx defaultPlayer).status ≠ PlayerStatus.active ∧ cnt < 8 then
    advanceLoop players ((idx + 1) % 8) (cnt + 1)
  else (idx, cnt)
termination_by 8 - cnt
decreasing_by omega

/-- `advanceTurn` from the source: fold-win short circuit, scan for the
next active seat, close the round when everybody matched and acted,
otherwise pass the turn. -/
def advanceTurn (prev : GameState) : Option GameState :=
  let activePlayers := prev.players.filter (fun p => p.status == .active)
  let allInPlayers := prev.players.filter (fun p => p.status == .allIn)
  let notFolded := activePlayers ++ allInPlayers
  if notFolded.length = 1 then determineWinner prev true
  else
    let scan := advanceLoop prev.players ((prev.currentPlayerIndex + 1) % 8) 0
    if scan.2 = 8 ∨ activePlayers.length = 0 then nextStreet prev
    else
      let allMatched := activePlayers.all (fun p => p.currentBet == prev.currentBet)
      let everyoneActed := activePlayers.all (fun p => p.lastAction.isSome)
      if allMatched ∧ everyoneActed then nextStreet prev
      else some { prev with currentPlayerIndex := scan.1 }

/-! ## Action application (`handleAction`) -/

/-- The state transformation inside `handleAction` (the `setGameState`
updater): illegal checks are downgraded to folds, then the four actions
update the acting seat, the pot and the table betting data. -/
def handleActionState (prev : GameState) (action : PlayerAction) (amount : Option Int) :
    GameState :=
  let player := prev.players.getD prev.currentPlayerIndex defaultPlayer
  let toCall := prev.currentBet - player.currentBet
  let safeAction := if action = .check ∧ 0 < toCall then PlayerAction.fold else action
  match safeAction with
  | .fold =>
    { prev with
      players := prev.players.set prev.currentPlayerIndex
        { player with status := .folded, lastAction := some "Fold" },
      logs := prev.logs ++ [player.name ++ " folds."] }
  | .check =>
    { prev with
      players := prev.players.set prev.currentPlayerIndex
        { player with lastAction := some "Check" },
      logs := prev.logs ++ [player.name ++ " checks."] }
  | .call =>
    let actualCall := min toCall player.chips
    let p1 := { player with
                chips := player.chips - actualCall
                currentBet := player.currentBet + actualCall
                totalInvested := player.totalInvested + actualCall
                lastAction := some "Call" }
    let p2 := if p1.chips = 0 then { p1 with status := .allIn } else p1
    { prev with
      players := prev.players.set prev.currentPlayerIndex p2
      pot := prev.pot + actualCall
      logs := prev.logs ++ [player.name ++ " calls $" ++ toString actualCall ++ "."] }
  | .raise =>
    let totalBet := match amount with
      | some a => if a = 0 then prev.currentBet + prev.minRaise else a
      | none => prev.currentBet + prev.minRaise
    let addedToPot := totalBet - player.currentBet
    let actualAdded := min addedToPot player.chips
    let finalTotalBet := player.currentBet + actualAdded
    let raiseDiff := finalTotalBet - prev.currentBet
    let newMinRaise := if prev.minRaise ≤ raiseDiff then raiseDiff else prev.minRaise
    let p1 := { player with
                chips := player.chips - actualAdded
                currentBet := finalTotalBet
                totalInvested := player.totalInvested + actualAdded
                lastAction := some ("Raise " ++ toString finalTotalBet) }
    let p2 := if p1.chips = 0 then { p1 with status := .allIn } else p1
    { prev with
      players := prev.players.set prev.currentPlayerIndex p2
      pot := prev.pot + actualAdded
      currentBet := max prev.currentBet finalTotalBet
      minRaise := newMinRaise
      lastAggressorIndex := some player.id
      logs := prev.logs ++ [player.name ++ " raises to " ++ toString finalTotalBet ++ "."] }

/-! ## Hand start (`startNewHand`) -/

/-- Step 1 of `startNewHand`: kick busted players, re-arm everyone else. -/
def cleanPlayers (ps : List Player) : List Player :=
  ps.map (fun p =>
    if p.chips = 0 ∧ p.status ≠ .spectator then { p with status := .spectator }
    else if p.status = .bust then { p with status := .spectator }
    else { p with
           status := .active
           currentBet := 0
           totalInvested := 0
           hand := []
           lastAction := none })

/-- The `while (status === 'spectator') idx = (idx + 1) % 8` scans of
`startNewHand`, with fuel 8 (sufficient whenever a non-spectator exists). -/
def skipSpectators (players : List Player) (idx : Nat) : Nat → Nat
  | 0 => idx
  | fuel + 1 =>
    if (players.getD idx defaultPlayer).status = .spectator then
      skipSpectators players ((idx + 1) % 8) fuel
    else idx

/-- Deal two cards off the top of the deck to every active seat, in seat
order. -/
def dealHandsAux : List Player → List Card → List Player × List Card
  | [], d => ([], d)
  | p :: ps, d =>
    if p.status = .active then
      let c1 := d.headD defaultCard
      let c2 := d.tail.headD defaultCard
      let rest := dealHandsAux ps d.tail.tail
      ({ p with hand := [c1, c2] } :: rest.1, rest.2)
    else
      let rest := dealHandsAux ps d
      (p :: rest.1, rest.2)

/-- Post one blind: the seat pays `min(chips, amount)`, its street bet and
hand investment are set to the posted amount, and it is all-in when its
stack is emptied.  Returns the updated seats and the amount posted. -/
def postBlind (ps : List Player) (idx : Nat) (amt : Int) : List Player × Int :=
  let p := ps.getD idx defaultPlayer
  let posted := min p.chips amt
  let p1 := { p with chips := p.chips - posted, currentBet := posted, totalInvested := posted }
  let p2 := if p1.chips = 0 then { p1 with status := .allIn } else p1
  (ps.set idx p2, posted)

/-- `startNewHand` from the source, parameterised by the already shuffled
deck (the call `shuffleDeck(createDeck())` draws it at random; every theorem
below holds for an arbitrary deck).  The two session-terminal branches
(human busted, fewer than two active seats) reload the page in the browser;
the updater returns `prev` there, which is how they are modelled. -/
def startNewHand (deck : List Card) (prev : GameState) : GameState :=
  let cleaned := cleanPlayers prev.players
  if (cleaned.getD 0 defaultPlayer).status = .spectator then prev
  else if (cleaned.filter (fun p => p.status == .active)).length < 2 then prev
  else
    let activeCount := (cleaned.filter (fun p => p.status == .active)).length
    let nextDealer := skipSpectators cleaned ((prev.dealerIndex + 1) % 8) 8
    let dealt := dealHandsAux cleaned deck
    let sbScan := skipSpectators dealt.1 ((nextDealer + 1) % 8) 8
    let bbScan := skipSpectators dealt.1 ((sbScan + 1) % 8) 8
    let utgScan := skipSpectators dealt.1 ((bbScan + 1) % 8) 8
    let sbIndex := if activeCount = 2 then nextDealer else sbScan
    let bbIndex := if activeCount = 2 then (nextDealer + 1) % 8 else bbScan
    let utgIndex := if activeCount = 2 then nextDealer else utgScan
    let afterSb := postBlind dealt.1 sbIndex SB_AMOUNT
    let afterBb := postBlind afterSb.1 bbIndex BB_AMOUNT
    { prev with
      players := afterBb.1,
      deck := dealt.2,
      communityCards := [],
      pot := afterSb.2 + afterBb.2,
      currentBet := BB_AMOUNT,
      minRaise := BB_AMOUNT,
      dealerIndex := nextDealer,
      currentPlayerIndex := utgIndex,
      stage := .preflop,
      lastAggressorIndex := none,
      winners := [],
      logs := ["New Hand. Blinds: " ++ toString afterSb.2 ++ "/" ++ toString afterBb.2],
      isThinking := false }

/-! ## AI decision sanitizer (`getAIDecision` in services/geminiService.ts) -/

structure AIAction where
  action : PlayerAction
  amount : Option Int
  reasoning : Option String
deriving DecidableEq, Repr

/-- The strict sanitization and rules-enforcement section at the end of
`getAIDecision`.  `decision` is whatever the selected strategy returned.
`isWorthCalling` abstracts the `analyzeHand`-based predicate
`analysis.rankValue >= 1 || analysis.outs >= 6`, used only to choose
between call and fold when correcting an illegal check (it never affects a
raise).  `decision.amount || 0` reads as `getD 0` because both `undefined`
and `0` yield `0`; `Math.ceil(minRaiseAmount * 2.0)` on an integer is
`2 * minRaiseAmount`. -/
def sanitizeDecision (decision : AIAction) (isWorthCalling : Bool)
    (player : Player) (gameState : GameState) (minRaiseAmount : Int) : AIAction :=
  let toCall := gameState.currentBet - player.currentBet
  let d1 :=
    if decision.action = .check ∧ 0 < toCall then
      { decision with
        action := if isWorthCalling then PlayerAction.call else PlayerAction.fold
        reasoning := some "Auto-corrected illegal check" }
    else decision
  if d1.action = .raise then
    let minLegalRaiseTotal := gameState.currentBet + minRaiseAmount
    let maxChips := player.chips + player.currentBet
    let t0 := d1.amount.getD 0
    let preferredMinRaise := gameState.currentBet + 2 * minRaiseAmount
    let t1 := if t0 < preferredMinRaise then preferredMinRaise else t0
    let t2 := if t1 < minLegalRaiseTotal then minLegalRaiseTotal else t1
    let t3 := if maxChips < t2 then maxChips else t2
    let t4 :=
      if minLegalRaiseTotal ≤ maxChips ∧ t3 < minLegalRaiseTotal then minLegalRaiseTotal
      else t3
    { d1 with amount := some t4 }
  else d1

/-- `getAIDecision`: the raw decision comes either from the offline
heuristic or from the external service (both abstracted into the `raw`
argument — the external call is asynchronous network I/O and the offline
heuristic draws random numbers), then passes through the mandatory
sanitizer, identical for both sources. -/
def getAIDecision (raw : AIAction) (isWorthCalling : Bool) (player : Player)
    (gameState : GameState) (minRaiseAmount : Int) : AIAction :=
  sanitizeDecision raw isWorthCalling player gameState minRaiseAmount

/-! ## Concrete states used by counterexamples and witnesses -/

def mkPlayer (id : Nat) (chips : Int) (bet : Int) (st : PlayerStatus)
    (act : Option String) : Player :=
  { id := id, name := "P" ++ toString id, isHuman := false, chips := chips, hand := [],
    currentBet := bet, status := st, lastAction := act, totalInvested := 0 }

def emptyState : GameState :=
  { players := [], pot := 0, communityCards := [], deck := [], dealerIndex := 0,
    currentPlayerIndex := 0, currentBet := 0, minRaise := BB_AMOUNT, lastAggressorIndex := none,
    stage := .preflop, winners := [], logs := [], isThinking := false, gameMode := .offline }

/-- A table facing a bet of 10 where seat 0 can only raise all-in for 3:
an under-sized raise. -/
def shortRaiseState : GameState :=
  { emptyState with
    players := [mkPlayer 0 3 0 .active none, mkPlayer 1 100 10 .active (some "Raise 10")]
    pot := 10
    currentBet := 10
    minRaise := 10
    lastAggressorIndex := none }

/-- A table facing a bet of 10 where seat 0 has not yet matched it. -/
def checkFacingBetState : GameState :=
  { emptyState with
    players := [mkPlayer 0 100 0 .active none, mkPlayer 1 90 10 .active (some "Raise 10")]
    pot := 10
    currentBet := 10
    minRaise := 10 }

/-- The `totalBet` local of the raise branch of `handleAction`. -/
def raiseTotalBet (prev : GameState) (amount : Option Int) : Int :=
  match amount with
  | some a => if a = 0 then prev.currentBet + prev.minRaise else a
  | none => prev.currentBet + prev.minRaise

/-- The `actualAdded` local of the raise branch of `handleAction`. -/
def raiseActualAdded (prev : GameState) (amount : Option Int) : Int :=
  min (raiseTotalBet prev amount -
      (prev.players.getD prev.currentPlayerIndex defaultPlayer).currentBet)
    (prev.players.getD prev.currentPlayerIndex defaultPlayer).chips

/-- The `finalTotalBet` local of the raise branch of `handleAction`. -/
def raiseFinalTotalBet (prev : GameState) (amount : Option Int) : Int :=
  (prev.players.getD prev.currentPlayerIndex defaultPlayer).currentBet +
    raiseActualAdded prev amount

/-- Eight seats where only seats 0 and 2 can play: seat 1 is a busted seat
(demoted to spectator by cleanup) sitting between them, and seats 3-7 are
broke.  Dealer button about to rotate to seat 0. -/
def headsUpGapPrev : GameState :=
  { emptyState with
    players :=
      [mkPlayer 0 100 0 .active none,
       mkPlayer 1 50 0 .bust none,
       mkPlayer 2 100 0 .active none,
       mkPlayer 3 0 0 .active none,
       mkPlayer 4 0 0 .active none,
       mkPlayer 5 0 0 .active none,
       mkPlayer 6 0 0 .active none,
       mkPlayer 7 0 0 .active none]
    dealerIndex := 7 }

/-- A hand where everyone but seat 0 has folded; seat 0 has matched the
table bet of 10 and has acted. -/
def lastCallerState : GameState :=
  { emptyState with
    players :=
      [mkPlayer 0 50 10 .active (some "Call"),
       mkPlayer 1 100 0 .folded (some "Fold"),
       mkPlayer 2 100 0 .folded (some "Fold"),
       mkPlayer 3 100 0 .folded (some "Fold"),
       mkPlayer 4 100 0 .folded (some "Fold"),
       mkPlayer 5 100 0 .folded (some "Fold"),
       mkPlayer 6 100 0 .folded (some "Fold"),
       mkPlayer 7 100 0 .folded (some "Fold")]
    pot := 30
    currentBet := 10
    stage := .preflop }

/-- Three live seats that have all called a bet of 10 and acted; the other
five seats folded.  The deck is fresh so the flop can be dealt. -/
def threeCallersState : GameState :=
  { emptyState with
    players :=
      [mkPlayer 0 90 10 .active (some "Call"),
       mkPlayer 1 90 10 .active (some "Call"),
       mkPlayer 2 90 10 .active (some "Call"),
       mkPlayer 3 100 0 .folded (some "Fold"),
       mkPlayer 4 100 0 .folded (some "Fold"),
       mkPlayer 5 100 0 .folded (some "Fold"),
       mkPlayer 6 100 0 .folded (some "Fold"),
       mkPlayer 7 100 0 .folded (some "Fold")]
    pot := 30
    currentBet := 10
    deck := createDeck
    stage := .preflop }

/-- A showdown with pot 101: the board is a royal flush in spades, so the
two live seats tie with identical straight-flush scores. -/
def splitPotState : GameState :=
  { emptyState with
    players :=
      [{ mkPlayer 0 100 0 .active (some "Call") with
         hand := [⟨.hearts, "2", 2⟩, ⟨.hearts, "3", 3⟩] },
       { mkPlayer 1 100 0 .active (some "Call") with
         hand := [⟨.diamonds, "2", 2⟩, ⟨.diamonds, "3", 3⟩] },
       mkPlayer 2 100 0 .folded (some "Fold"),
       mkPlayer 3 100 0 .folded (some "Fold"),
       mkPlayer 4 100 0 .folded (some "Fold"),
       mkPlayer 5 100 0 .folded (some "Fold"),
       mkPlayer 6 100 0 .folded (some "Fold"),
       mkPlayer 7 100 0 .folded (some "Fold")]
    pot := 101
    communityCards :=
      [⟨.spades, "10", 10⟩, ⟨.spades, "J", 11⟩, ⟨.spades, "Q", 12⟩,
       ⟨.spades, "K", 13⟩, ⟨.spades, "A", 14⟩]
    stage := .showdown }

/-- The scored-seat list `determineWinner` computes for `splitPotState`. -/
def splitScored : List ScoredPlayer :=
  [{ id := 0, name := "P0", handRank := { rank := 8, name := "Straight Flush", score := 8000014 } },
   { id := 1, name := "P1", handRank := { rank := 8, name := "Straight Flush", score := 8000014 } }]

/-! ### Step relations for within-hand reachability -/

/-- Total chips on the table: all stacks plus the pot. -/
def chipSum (s : GameState) : Int :=
  (s.players.map (fun p => p.chips)).sum + s.pot

/-- One engine step inside a hand that does not distribute the pot: an
action applied by `handleAction` on the seat whose turn it is, or a turn
advancement that does not end the hand (`advanceTurn` distributes the pot
exactly when the resulting stage is game-over). -/
inductive HandStep : GameState → GameState → Prop
  | act (s : GameState) (a : PlayerAction) (amt : Option Int)
      (hidx : s.currentPlayerIndex < s.players.length) :
      HandStep s (handleActionState s a amt)
  | adv (s s2 : GameState) (hadv : advanceTurn s = some s2)
      (hng : s2.stage ≠ .gameOver) : HandStep s s2

/-- Reachability through `HandStep`s. -/
inductive HandReachable : GameState → GameState → Prop
  | refl (s : GameState) : HandReachable s s
  | step (s t u : GameState) (h : HandReachable s t) (hs : HandStep t u) :
      HandReachable s u

/-- One arbitrary engine step: an action applied by `handleAction`, or any
turn advancement (including pot distribution). -/
inductive EngineStep : GameState → GameState → Prop
  | act (s : GameState) (a : PlayerAction) (amt : Option Int) :
      EngineStep s (handleActionState s a amt)
  | adv (s s2 : GameState) (hadv : advanceTurn s = some s2) : EngineStep s s2

/-- Reachability through arbitrary engine steps. -/
inductive EngineReachable : GameState → GameState → Prop
  | refl (s : GameState) : EngineReachable s s
  | step (s t u : GameState) (h : EngineReachable s t) (hs : EngineStep t u) :
      EngineReachable s u

/-- The implicit street-bet invariant: every seat's current-street bet is
at most the table bet-to-match, which is nonnegative. -/
def BetInv (s : GameState) : Prop :=
  (∀ p ∈ s.players, p.currentBet ≤ s.currentBet) ∧ 0 ≤ s.currentBet

/-- Shared board for the evaluator-ordering witness hands. -/
def c2board : List Card :=
  [{ suit := .hearts, rank := "2", value := 2 },
   { suit := .diamonds, rank := "5", value := 5 },
   { suit := .clubs, rank := "7", value := 7 },
   { suit := .spades, rank := "9", value := 9 },
   { suit := .hearts, rank := "J", value := 11 }]

/-- Hole cards making a pair of aces on `c2board`. -/
def c2holeA : List Card :=
  [{ suit := .clubs, rank := "A", value := 14 },
   { suit := .diamonds, rank := "A", value := 14 }]

/-- Hole cards making king-high on `c2board`. -/
def c2holeB : List Card :=
  [{ suit := .clubs, rank := "K", value := 13 },
   { suit := .diamonds, rank := "Q", value := 12 }]

/-! # Theorems -/

/-! ### Characterization equations for `handleActionState` -/

theorem handleActionState_check_to_fold (prev : GameState) (amount : Option Int)
    (h : (prev.players.getD prev.currentPlayerIndex defaultPlayer).currentBet <
      prev.currentBet) :
    handleActionState prev .check amount = handleActionState prev .fold amount := by
  rw [List.getD_eq_getElem?_getD] at h
  unfold handleActionState
  simp [sub_pos, h]

theorem handleActionState_fold_eq (prev : GameState) (amount : Option Int) :
    handleActionState prev .fold amount =
      { prev with
        players := prev.players.set prev.currentPlayerIndex
          { prev.players.getD prev.currentPlayerIndex defaultPlayer with
            status := .folded
            lastAction := some "Fold" }
        logs := prev.logs ++
          [(prev.players.getD prev.currentPlayerIndex defaultPlayer).name ++ " folds."] } := by
  unfold handleActionState
  simp

theorem handleActionState_check_eq (prev : GameState) (amount : Option Int)
    (h : prev.currentBet ≤
      (prev.players.getD prev.currentPlayerIndex defaultPlayer).currentBet) :
    handleActionState prev .check amount =
      { prev with
        players := prev.players.set prev.currentPlayerIndex
          { prev.players.getD prev.currentPlayerIndex defaultPlayer with
            lastAction := some "Check" }
        logs := prev.logs ++
          [(prev.players.getD prev.currentPlayerIndex defaultPlayer).name ++ " checks."] } := by
  rw [List.getD_eq_getElem?_getD] at h
  have h2 : ¬((prev.players.getD prev.currentPlayerIndex defaultPlayer).currentBet <
      prev.currentBet) := by
    rw [List.getD_eq_getElem?_getD]
    omega
  rw [List.getD_eq_getElem?_getD] at h2
  unfold handleActionState
  simp [sub_pos, h2]

theorem handleActionState_call_eq (prev : GameState) (amount : Option Int) :
    handleActionState prev .call amount =
      (let player := prev.players.getD prev.currentPlayerIndex defaultPlayer
       let actualCall := min (prev.currentBet - player.currentBet) player.chips
       let p1 := { player with
                   chips := player.chips - actualCall
                   currentBet := player.currentBet + actualCall
                   totalInvested := player.totalInvested + actualCall
                   lastAction := some "Call" }
       let p2 := if p1.chips = 0 then { p1 with status := .allIn } else p1
       { prev with
         players := prev.players.set prev.currentPlayerIndex p2
         pot := prev.pot + actualCall
         logs := prev.logs ++ [player.name ++ " calls $" ++ toString actualCall ++ "."] }) := by
  unfold handleActionState
  simp

theorem handleActionState_raise_eq (prev : GameState) (amount : Option Int) :
    handleActionState prev .raise amount =
      (let player := prev.players.getD prev.currentPlayerIndex defaultPlayer
       let totalBet := match amount with
         | some a => if a = 0 then prev.currentBet + prev.minRaise else a
         | none => prev.currentBet + prev.minRaise
       let actualAdded := min (totalBet - player.currentBet) player.chips
       let finalTotalBet := player.currentBet + actualAdded
       let raiseDiff := finalTotalBet - prev.currentBet
       let newMinRaise := if prev.minRaise ≤ raiseDiff then raiseDiff else prev.minRaise
       let p1 := { player with
                   chips := player.chips - actualAdded
                   currentBet := finalTotalBet
                   totalInvested := player.totalInvested + actualAdded
                   lastAction := some ("Raise " ++ toString finalTotalBet) }
       let p2 := if p1.chips = 0 then { p1 with status := .allIn } else p1
       { prev with
         players := prev.players.set prev.currentPlayerIndex p2
         pot := prev.pot + actualAdded
         currentBet := max prev.currentBet finalTotalBet
         minRaise := newMinRaise
         lastAggressorIndex := some player.id
         logs := prev.logs ++
           [player.name ++ " raises to " ++ toString finalTotalBet ++ "."] }) := by
  unfold handleActionState
  simp

/-- Claim C3.  Illegal-check correction: when `handleAction` receives
`check` while the table bet-to-match strictly exceeds the acting player's
current-street bet, the action executes as a fold — the acting player's
status becomes folded while the pot, every chip stack and street bet, the
table bet-to-match, the minimum raise increment, and the last-aggressor
marker are all unchanged. -/
theorem illegal_check_forced_fold (prev : GameState) (amount : Option Int)
    (hidx : prev.currentPlayerIndex < prev.players.length)
    (h : (prev.players.getD prev.currentPlayerIndex defaultPlayer).currentBet <
      prev.currentBet) :
    ((handleActionState prev .check amount).players.getD prev.currentPlayerIndex
        defaultPlayer).status = .folded ∧
    (handleActionState prev .check amount).pot = prev.pot ∧
    (∀ i, ((handleActionState prev .check amount).players.getD i defaultPlayer).chips =
            (prev.players.getD i defaultPlayer).chips ∧
          ((handleActionState prev .check amount).players.getD i defaultPlayer).currentBet =
            (prev.players.getD i defaultPlayer).currentBet) ∧
    (handleActionState prev .check amount).currentBet = prev.currentBet ∧
    (handleActionState prev .check amount).minRaise = prev.minRaise ∧
    (handleActionState prev .check amount).lastAggressorIndex = prev.lastAggressorIndex := by
  rw [handleActionState_check_to_fold prev amount h, handleActionState_fold_eq]
  refine ⟨?_, rfl, ?_, rfl, rfl, rfl⟩
  · simp [List.getD_eq_getElem?_getD, List.getElem?_set_self, hidx]
  · intro i
    by_cases hi : prev.currentPlayerIndex = i
    · subst hi
      simp [List.getD_eq_getElem?_getD, List.getElem?_set_self, hidx]
    · simp [List.getD_eq_getElem?_getD, List.getElem?_set_ne hi]

/-- Claim C4, counterexample.  Seat 0 raises all-in to 3 facing a bet of 10
with minimum raise 10: an under-sized raise (3 − 10 < 10), yet the
last-aggressor marker changes from `none` to seat 0 — `handleAction` sets
the aggressor on every raise, under-sized or not. -/
theorem undersized_raise_aggressor_cex :
    raiseFinalTotalBet shortRaiseState (some 3) - shortRaiseState.currentBet <
      shortRaiseState.minRaise ∧
    (handleActionState shortRaiseState .raise (some 3)).lastAggressorIndex ≠
      shortRaiseState.lastAggressorIndex := by
  decide

/-- Claim C4, amended.  For every raise whose resulting total street bet
exceeds the previous table bet-to-match by strictly less than the current
minimum raise increment, the chips still move (stack, pot, current-street
bet and total invested are updated) and the minimum raise increment is left
unchanged, but the last-aggressor marker is set to the acting player's id. -/
theorem undersized_raise_no_reopen (prev : GameState) (amount : Option Int)
    (hidx : prev.currentPlayerIndex < prev.players.length)
    (hshort : raiseFinalTotalBet prev amount - prev.currentBet < prev.minRaise) :
    (handleActionState prev .raise amount).minRaise = prev.minRaise ∧
    (handleActionState prev .raise amount).lastAggressorIndex =
      some (prev.players.getD prev.currentPlayerIndex defaultPlayer).id ∧
    (handleActionState prev .raise amount).pot =
      prev.pot + raiseActualAdded prev amount ∧
    ((handleActionState prev .raise amount).players.getD prev.currentPlayerIndex
        defaultPlayer).chips =
      (prev.players.getD prev.currentPlayerIndex defaultPlayer).chips -
        raiseActualAdded prev amount ∧
    ((handleActionState prev .raise amount).players.getD prev.currentPlayerIndex
        defaultPlayer).currentBet = raiseFinalTotalBet prev amount ∧
    ((handleActionState prev .raise amount).players.getD prev.currentPlayerIndex
        defaultPlayer).totalInvested =
      (prev.players.getD prev.currentPlayerIndex defaultPlayer).totalInvested +
        raiseActualAdded prev amount := by
  rw [handleActionState_raise_eq]
  simp only [raiseFinalTotalBet, raiseActualAdded, raiseTotalBet] at hshort ⊢
  refine ⟨?_, ?_, ?_, ?_, ?_, ?_⟩ <;>
    simp only [List.getD_eq_getElem?_getD] at hshort ⊢ <;>
    split_ifs <;>
    simp [List.getElem?_set_self, hidx] <;>
    omega

/-- Witness for `undersized_raise_no_reopen` at the concrete under-sized
all-in raise of `undersized_raise_aggressor_cex`. -/
theorem undersized_raise_no_reopen_witness :
    (handleActionState shortRaiseState .raise (some 3)).minRaise = shortRaiseState.minRaise ∧
    (handleActionState shortRaiseState .raise (some 3)).lastAggressorIndex =
      some (shortRaiseState.players.getD shortRaiseState.currentPlayerIndex defaultPlayer).id :=
  ⟨(undersized_raise_no_reopen shortRaiseState (some 3) (by decide) (by decide)).1,
   (undersized_raise_no_reopen shortRaiseState (some 3) (by decide) (by decide)).2.1⟩

/-- Witness for `illegal_check_forced_fold` at a concrete state where seat 0
faces a bet of 10 with a street bet of 0. -/
theorem illegal_check_forced_fold_witness :
    ((handleActionState checkFacingBetState .check none).players.getD
        checkFacingBetState.currentPlayerIndex defaultPlayer).status = .folded ∧
    (handleActionState checkFacingBetState .check none).pot = checkFacingBetState.pot :=
  ⟨(illegal_check_forced_fold checkFacingBetState none (by decide) (by decide)).1,
   (illegal_check_forced_fold checkFacingBetState none (by decide) (by decide)).2.1⟩

/-- Claim C8.  Sanitizer raise clamp: whatever raw decision the strategy
produced, if `getAIDecision` returns a raise and the seat can afford a legal
minimum raise, the returned amount lies within
`[table bet-to-match + minRaise, chips + current street bet]`. -/
theorem sanitizer_raise_clamped (raw : AIAction) (worth : Bool) (player : Player)
    (gs : GameState) (minRaiseAmount : Int)
    (hcap : gs.currentBet + minRaiseAmount ≤ player.chips + player.currentBet)
    (hr : (getAIDecision raw worth player gs minRaiseAmount).action = .raise) :
    ∃ a, (getAIDecision raw worth player gs minRaiseAmount).amount = some a ∧
      gs.currentBet + minRaiseAmount ≤ a ∧ a ≤ player.chips + player.currentBet := by
  simp only [getAIDecision, sanitizeDecision] at hr ⊢
  split_ifs at hr ⊢ <;>
    first
      | exact ⟨_, rfl, by omega, by omega⟩
      | simp_all

/-- Witness for `sanitizer_raise_clamped`: a raw raise of 0 by a seat with
100 chips facing a bet of 10 with raise increment 10 is clamped into
[20, 100] (to 30). -/
theorem sanitizer_raise_clamped_witness :
    ∃ a, (getAIDecision { action := .raise, amount := some 0, reasoning := none } true
        (mkPlayer 0 100 0 .active none) checkFacingBetState 10).amount = some a ∧
      checkFacingBetState.currentBet + 10 ≤ a ∧
      a ≤ (mkPlayer 0 100 0 .active none).chips + (mkPlayer 0 100 0 .active none).currentBet :=
  sanitizer_raise_clamped { action := .raise, amount := some 0, reasoning := none } true
    (mkPlayer 0 100 0 .active none) checkFacingBetState 10 (by decide) (by decide)

/-! ### Supporting lemmas for `startNewHand` -/

theorem skipSpectators_lt (players : List Player) (idx fuel : Nat) (h : idx < 8) :
    skipSpectators players idx fuel < 8 := by
  induction fuel generalizing idx with
  | zero => simpa [skipSpectators] using h
  | succ n ih =>
    unfold skipSpectators
    split_ifs
    · exact ih _ (Nat.mod_lt _ (by omega))
    · exact h

theorem dealHandsAux_length (ps : List Player) (d : List Card) :
    (dealHandsAux ps d).1.length = ps.length := by
  induction ps generalizing d with
  | nil => rfl
  | cons p ps ih =>
    unfold dealHandsAux
    split_ifs <;> simp [ih]

theorem dealHandsAux_chips (ps : List Player) (d : List Card) (i : Nat) :
    ((dealHandsAux ps d).1.getD i defaultPlayer).chips = (ps.getD i defaultPlayer).chips := by
  induction ps generalizing d i with
  | nil => rfl
  | cons p ps ih =>
    unfold dealHandsAux
    split_ifs <;> cases i <;>
      simp [List.getD_cons_zero, List.getD_cons_succ] <;>
      simpa [List.getD_eq_getElem?_getD] using ih _ _

theorem postBlind_length (ps : List Player) (idx : Nat) (amt : Int) :
    (postBlind ps idx amt).1.length = ps.length := by
  simp [postBlind]

theorem postBlind_getD_self (ps : List Player) (idx : Nat) (amt : Int) (h : idx < ps.length) :
    ((postBlind ps idx amt).1.getD idx defaultPlayer).currentBet =
      min (ps.getD idx defaultPlayer).chips amt := by
  simp only [postBlind]
  split_ifs <;> simp [List.getD_eq_getElem?_getD, List.getElem?_set_self, h]

theorem postBlind_getD_other (ps : List Player) (idx j : Nat) (amt : Int) (h : idx ≠ j) :
    (postBlind ps idx amt).1.getD j defaultPlayer = ps.getD j defaultPlayer := by
  unfold postBlind
  simp [List.getD_eq_getElem?_getD, List.getElem?_set_ne h]

theorem postBlind_snd (ps : List Player) (idx : Nat) (amt : Int) :
    (postBlind ps idx amt).2 = min (ps.getD idx defaultPlayer).chips amt := rfl

/-- Claim C9, counterexample.  With exactly two active seats (0 and 2) and
the dealer rotating to seat 0, the heads-up branch posts the big blind at
seat `(dealer + 1) % 8 = 1` without skipping spectators: the busted
spectator seat 1 is charged the big blind while the other active seat 2
posts nothing. -/
theorem headsup_bb_seat_cex :
    ((cleanPlayers headsUpGapPrev.players).filter (fun p => p.status == .active)).length = 2 ∧
    (startNewHand createDeck headsUpGapPrev).dealerIndex = 0 ∧
    ((startNewHand createDeck headsUpGapPrev).players.getD 2 defaultPlayer).status =
      .active ∧
    ((startNewHand createDeck headsUpGapPrev).players.getD 2 defaultPlayer).currentBet = 0 ∧
    ((startNewHand createDeck headsUpGapPrev).players.getD 2 defaultPlayer).totalInvested
      = 0 ∧
    ((startNewHand createDeck headsUpGapPrev).players.getD 1 defaultPlayer).status =
      .spectator ∧
    ((startNewHand createDeck headsUpGapPrev).players.getD 1 defaultPlayer).currentBet =
      BB_AMOUNT := by
  decide

/-- Claim C9, amended.  In `startNewHand`, whenever exactly two seats are
active after cleanup, the dealer seat posts the small blind, the seat at
index `(dealer + 1) % 8` — which need not be the other active seat, since
the heads-up branch does not skip spectators — posts the big blind, and the
dealer seat is first to act preflop. -/
theorem headsup_blind_exception (deck : List Card) (prev : GameState)
    (hlen : prev.players.length = 8)
    (hnotspec : ((cleanPlayers prev.players).getD 0 defaultPlayer).status ≠ .spectator)
    (hcount :
      ((cleanPlayers prev.players).filter (fun p => p.status == .active)).length = 2) :
    (startNewHand deck prev).currentPlayerIndex = (startNewHand deck prev).dealerIndex ∧
    ((startNewHand deck prev).players.getD (startNewHand deck prev).dealerIndex
        defaultPlayer).currentBet =
      min ((cleanPlayers prev.players).getD (startNewHand deck prev).dealerIndex
        defaultPlayer).chips SB_AMOUNT ∧
    ((startNewHand deck prev).players.getD (((startNewHand deck prev).dealerIndex + 1) % 8)
        defaultPlayer).currentBet =
      min ((cleanPlayers prev.players).getD (((startNewHand deck prev).dealerIndex + 1) % 8)
        defaultPlayer).chips BB_AMOUNT ∧
    (startNewHand deck prev).pot =
      min ((cleanPlayers prev.players).getD (startNewHand deck prev).dealerIndex
        defaultPlayer).chips SB_AMOUNT +
      min ((cleanPlayers prev.players).getD (((startNewHand deck prev).dealerIndex + 1) % 8)
        defaultPlayer).chips BB_AMOUNT := by
  have hn2 : ¬(((cleanPlayers prev.players).filter
      (fun p => p.status == PlayerStatus.active)).length < 2) := by omega
  have hnd8 : skipSpectators (cleanPlayers prev.players)
      ((prev.dealerIndex + 1) % 8) 8 < 8 :=
    skipSpectators_lt _ _ _ (Nat.mod_lt _ (by omega))
  have hdlen : (dealHandsAux (cleanPlayers prev.players) deck).1.length = 8 := by
    rw [dealHandsAux_length]
    simpa [cleanPlayers] using hlen
  have hne : skipSpectators (cleanPlayers prev.players) ((prev.dealerIndex + 1) % 8) 8 ≠
      (skipSpectators (cleanPlayers prev.players) ((prev.dealerIndex + 1) % 8) 8 + 1) % 8 := by
    omega
  simp only [startNewHand, hcount, if_neg hnotspec, if_neg hn2, Nat.lt_irrefl,
    eq_self_iff_true, if_true, if_false, ite_true, ite_false]
  refine ⟨trivial, ?_, ?_, ?_⟩
  · rw [postBlind_getD_other _ _ _ _ hne.symm, postBlind_getD_self _ _ _ (by omega),
      dealHandsAux_chips]
  · rw [postBlind_getD_self _ _ _ (by rw [postBlind_length]; omega),
      postBlind_getD_other _ _ _ _ hne, dealHandsAux_chips]
  · rw [postBlind_snd, postBlind_snd, postBlind_getD_other _ _ _ _ hne,
      dealHandsAux_chips, dealHandsAux_chips]

/-- Witness for `headsup_blind_exception` at the concrete two-player table
`headsUpGapPrev` with the unshuffled deck. -/
theorem headsup_blind_exception_witness :
    (startNewHand createDeck headsUpGapPrev).currentPlayerIndex =
      (startNewHand createDeck headsUpGapPrev).dealerIndex ∧
    ((startNewHand createDeck headsUpGapPrev).players.getD
        (startNewHand createDeck headsUpGapPrev).dealerIndex defaultPlayer).currentBet =
      min ((cleanPlayers headsUpGapPrev.players).getD
        (startNewHand createDeck headsUpGapPrev).dealerIndex defaultPlayer).chips
        SB_AMOUNT :=
  ⟨(headsup_blind_exception createDeck headsUpGapPrev (by decide) (by decide) (by decide)).1,
   (headsup_blind_exception createDeck headsUpGapPrev (by decide) (by decide) (by decide)).2.1⟩

/-! ### Round closure -/

/-- Claim C6, counterexample.  In `lastCallerState` every active seat has
matched the table bet-to-match and has a recorded action, yet `advanceTurn`
does not advance to a next street: only one non-folded seat remains, so the
hand is resolved by fold-win — the resulting stage is game-over and the
table bet-to-match stays 10 instead of being reset to 0. -/
theorem round_closure_cex :
    (∀ p ∈ lastCallerState.players.filter (fun q => q.status == .active),
        p.currentBet = lastCallerState.currentBet ∧ p.lastAction.isSome) ∧
    (advanceTurn lastCallerState).map (fun s => s.stage) = some .gameOver ∧
    (advanceTurn lastCallerState).map (fun s => s.currentBet) = some 10 := by
  decide

/-- When the stage is preflop, flop or turn, `nextStreet` produces a state
with every street bet reset to 0, table bet-to-match 0 and minimum raise
equal to the big blind, on the following street. -/
theorem nextStreet_resets (prev : GameState)
    (hstage : prev.stage = .preflop ∨ prev.stage = .flop ∨ prev.stage = .turn) :
    ∃ s, nextStreet prev = some s ∧ (∀ p ∈ s.players, p.currentBet = 0) ∧
      s.currentBet = 0 ∧ s.minRaise = BB_AMOUNT ∧
      ((prev.stage = .preflop ∧ s.stage = .flop) ∨
       (prev.stage = .flop ∧ s.stage = .turn) ∨
       (prev.stage = .turn ∧ s.stage = .river)) := by
  rcases hstage with h | h | h <;>
    refine ⟨_, by rw [nextStreet, h], ?_, rfl, rfl, by simp [h]⟩ <;>
    · intro p hp
      simp only [List.mem_map] at hp
      obtain ⟨q, _, rfl⟩ := hp
      rfl

/-- Claim C6, amended.  Whenever `advanceTurn` runs in a state whose stage
is preflop, flop or turn, in which the hand is not already decided (the
number of non-folded seats is not exactly one), and in which every seat
with status active has its current-street bet equal to the table
bet-to-match and a recorded action, the engine advances to the next street,
in which every seat's current-street bet is 0, the table bet-to-match is 0,
and the minimum raise increment equals the big-blind amount.  (As stated
the claim fails when only one non-folded seat remains — the hand resolves
by fold-win instead — and at the river, where showdown resolution keeps the
old table bet.) -/
theorem round_closure (prev : GameState)
    (hnf : ((prev.players.filter (fun p => p.status == .active)) ++
        (prev.players.filter (fun p => p.status == .allIn))).length ≠ 1)
    (hstage : prev.stage = .preflop ∨ prev.stage = .flop ∨ prev.stage = .turn)
    (hmatched : ∀ p ∈ prev.players, p.status = .active → p.currentBet = prev.currentBet)
    (hacted : ∀ p ∈ prev.players, p.status = .active → p.lastAction.isSome) :
    ∃ s, advanceTurn prev = some s ∧ (∀ p ∈ s.players, p.currentBet = 0) ∧
      s.currentBet = 0 ∧ s.minRaise = BB_AMOUNT ∧
      ((prev.stage = .preflop ∧ s.stage = .flop) ∨
       (prev.stage = .flop ∧ s.stage = .turn) ∨
       (prev.stage = .turn ∧ s.stage = .river)) := by
  obtain ⟨s, hs, hb, hcb, hmr, hst⟩ := nextStreet_resets prev hstage
  refine ⟨s, ?_, hb, hcb, hmr, hst⟩
  have hall : (prev.players.filter (fun p => p.status == .active)).all
      (fun p => p.currentBet == prev.currentBet) = true := by
    rw [List.all_eq_true]
    intro p hp
    rw [List.mem_filter] at hp
    exact beq_iff_eq.mpr (hmatched p hp.1 (by simpa using hp.2))
  have hactedall : (prev.players.filter (fun p => p.status == .active)).all
      (fun p => p.lastAction.isSome) = true := by
    rw [List.all_eq_true]
    intro p hp
    rw [List.mem_filter] at hp
    exact hacted p hp.1 (by simpa using hp.2)
  unfold advanceTurn
  rw [if_neg hnf]
  simp only [hall, hactedall, and_self, eq_self_iff_true, if_true, ite_true, ite_self]
  exact hs

/-- Witness for `round_closure`: three seats have all called 10 and acted;
the engine deals the flop with all bets and the table bet reset. -/
theorem round_closure_witness :
    ∃ s, advanceTurn threeCallersState = some s ∧ (∀ p ∈ s.players, p.currentBet = 0) ∧
      s.currentBet = 0 ∧ s.minRaise = BB_AMOUNT :=
  (round_closure threeCallersState (by decide) (by decide) (by decide) (by decide)).imp
    (fun _ h => ⟨h.1, h.2.1, h.2.2.1, h.2.2.2.1⟩)

/-! ### Split pot at showdown -/

theorem scoreSeats_length (comm : List Card) :
    ∀ (ps : List Player) (res : List ScoredPlayer), scoreSeats comm ps = some res →
      res.length = ps.length := by
  intro ps
  induction ps with
  | nil =>
    intro res h
    simp only [scoreSeats, Option.some_inj] at h
    simp [← h]
  | cons p ps ih =>
    intro res h
    unfold scoreSeats at h
    cases he : evaluateHand p.hand comm with
    | none => rw [he] at h; exact absurd h (by simp)
    | some hr =>
      rw [he] at h
      cases hs : scoreSeats comm ps with
      | none => rw [hs] at h; exact absurd h (by simp)
      | some rest =>
        rw [hs] at h
        simp only [Option.some_inj] at h
        rw [← h]
        simp [ih rest hs]

theorem scoreSeats_mem_left (comm : List Card) :
    ∀ (ps : List Player) (res : List ScoredPlayer), scoreSeats comm ps = some res →
      ∀ p ∈ ps, ∃ hr, evaluateHand p.hand comm = some hr ∧
        ({ id := p.id, name := p.name, handRank := hr } : ScoredPlayer) ∈ res := by
  intro ps
  induction ps with
  | nil => intro res _ p hp; exact absurd hp (by simp)
  | cons p0 ps ih =>
    intro res h p hp
    unfold scoreSeats at h
    cases he : evaluateHand p0.hand comm with
    | none => rw [he] at h; exact absurd h (by simp)
    | some hr0 =>
      rw [he] at h
      cases hs : scoreSeats comm ps with
      | none => rw [hs] at h; exact absurd h (by simp)
      | some rest =>
        rw [hs] at h
        simp only [Option.some_inj] at h
        rcases List.mem_cons.mp hp with hp0 | hps
        · subst hp0
          exact ⟨hr0, he, by rw [← h]; exact List.mem_cons_self _ _⟩
        · obtain ⟨hr, hhr, hmem⟩ := ih rest hs p hps
          exact ⟨hr, hhr, by rw [← h]; exact List.mem_cons_of_mem _ hmem⟩

theorem scoreSeats_mem_right (comm : List Card) :
    ∀ (ps : List Player) (res : List ScoredPlayer), scoreSeats comm ps = some res →
      ∀ q ∈ res, ∃ p ∈ ps, q.id = p.id ∧ evaluateHand p.hand comm = some q.handRank := by
  intro ps
  induction ps with
  | nil =>
    intro res h q hq
    simp only [scoreSeats, Option.some_inj] at h
    rw [← h] at hq
    exact absurd hq (by simp)
  | cons p0 ps ih =>
    intro res h q hq
    unfold scoreSeats at h
    cases he : evaluateHand p0.hand comm with
    | none => rw [he] at h; exact absurd h (by simp)
    | some hr0 =>
      rw [he] at h
      cases hs : scoreSeats comm ps with
      | none => rw [hs] at h; exact absurd h (by simp)
      | some rest =>
        rw [hs] at h
        simp only [Option.some_inj] at h
        rw [← h] at hq
        rcases List.mem_cons.mp hq with hq0 | hqs
        · subst hq0
          exact ⟨p0, List.mem_cons_self _ _, rfl, he⟩
        · obtain ⟨p, hp, hid, hhr⟩ := ih rest hs q hqs
          exact ⟨p, List.mem_cons_of_mem _ hp, hid, hhr⟩

theorem getD_map_lt {f : Player → Player} {l : List Player} {i : Nat} (hi : i < l.length) :
    (l.map f).getD i defaultPlayer = f (l.getD i defaultPlayer) := by
  rw [List.getD_eq_getElem?_getD, List.getD_eq_getElem?_getD,
    List.getElem?_eq_getElem hi, List.getElem?_eq_getElem (by simpa using hi)]
  simp

/-- Claim C5.  Split-pot floor division: at a showdown resolved by
`determineWinner` in which the non-folded seats score `scored` and exactly
the seats scoring `best` (the maximum) tie, every tying seat's stack grows
by exactly `pot / n` rounded down (`n` the number of tying seats), every
other seat's stack is unchanged (no seat receives the remainder), the pot
becomes 0 and the stage becomes game-over. -/
theorem split_pot_floor (state : GameState) (scored : List ScoredPlayer) (best : Nat)
    (hids : (state.players.map (fun p => p.id)).Nodup)
    (hlen2 : 2 ≤ (notFoldedOf state.players).length)
    (hscore : scoreSeats state.communityCards (notFoldedOf state.players) = some scored)
    (hbestmem : ∃ q ∈ scored, q.handRank.score = best)
    (hbestmax : ∀ q ∈ scored, q.handRank.score ≤ best) :
    ∃ s, determineWinner state false = some s ∧ s.pot = 0 ∧ s.stage = .gameOver ∧
      ∀ i, i < state.players.length →
        ((state.players.getD i defaultPlayer ∈ notFoldedOf state.players ∧
          (∃ hr, evaluateHand (state.players.getD i defaultPlayer).hand
              state.communityCards = some hr ∧ hr.score = best)) →
          (s.players.getD i defaultPlayer).chips =
            (state.players.getD i defaultPlayer).chips +
              state.pot.fdiv ((scored.filter
                (fun q => q.handRank.score == best)).length : Int)) ∧
        (¬(state.players.getD i defaultPlayer ∈ notFoldedOf state.players ∧
           (∃ hr, evaluateHand (state.players.getD i defaultPlayer).hand
               state.communityCards = some hr ∧ hr.score = best)) →
          (s.players.getD i defaultPlayer).chips =
            (state.players.getD i defaultPlayer).chips) := by
  have hnf1 : ¬(false = true ∨ (notFoldedOf state.players).length = 1) := by
    simp only [Bool.false_eq_true, false_or]
    omega
  have hperm : List.Perm (scored.insertionSort byScoreDesc) scored :=
    List.perm_insertionSort _ _
  have hslen : (scored.insertionSort byScoreDesc).length = scored.length := hperm.length_eq
  have hlen : scored.length = (notFoldedOf state.players).length :=
    scoreSeats_length _ _ _ hscore
  have hne : scored.insertionSort byScoreDesc ≠ [] := by
    intro hcon
    rw [hcon] at hslen
    simp only [List.length_nil] at hslen
    omega
  obtain ⟨top, rest, htop⟩ := List.exists_cons_of_ne_nil hne
  have hsorted : List.Sorted byScoreDesc (scored.insertionSort byScoreDesc) :=
    List.sorted_insertionSort _ _
  have htopmem : top ∈ scored := hperm.mem_iff.mp (htop ▸ List.mem_cons_self _ _)
  have htople : top.handRank.score ≤ best := hbestmax _ htopmem
  have hbestle : best ≤ top.handRank.score := by
    obtain ⟨q, hq, hqs⟩ := hbestmem
    have hq2 : q ∈ scored.insertionSort byScoreDesc := hperm.mem_iff.mpr hq
    rw [htop] at hq2
    rcases List.mem_cons.mp hq2 with h | h
    · rw [← hqs, h]
    · have hrel : byScoreDesc top q := by
        have hsc := hsorted
        rw [htop] at hsc
        exact (List.sorted_cons.mp hsc).1 q h
      unfold byScoreDesc at hrel
      omega
  have htopbest : top.handRank.score = best := le_antisymm htople hbestle
  have hfperm : List.Perm ((scored.insertionSort byScoreDesc).filter
        (fun q => q.handRank.score == best))
      (scored.filter (fun q => q.handRank.score == best)) := hperm.filter _
  unfold determineWinner
  rw [if_neg hnf1, hscore]
  dsimp only
  rw [htop]
  simp only [List.head?_cons]
  rw [htopbest]
  refine ⟨_, rfl, rfl, rfl, ?_⟩
  intro i hi
  have hpm : state.players.getD i defaultPlayer ∈ state.players := by
    rw [List.getD_eq_getElem?_getD, List.getElem?_eq_getElem hi]
    exact List.getElem_mem _
  simp only [distributePot]
  rw [getD_map_lt hi]
  by_cases hc : (((top :: rest).filter
        (fun q => q.handRank.score == best)).map (fun w => w.id)).contains
      (state.players.getD i defaultPlayer).id = true
  · constructor
    · intro _
      simp only [List.find?, hc]
      have hlenfperm : ((top :: rest).filter (fun q => q.handRank.score == best)).length =
          (scored.filter (fun q => q.handRank.score == best)).length := by
        rw [← htop]
        exact hfperm.length_eq
      rw [hlenfperm]
    · intro hnot
      exfalso
      apply hnot
      rw [List.elem_iff] at hc
      obtain ⟨q, hqf, hqid⟩ := List.mem_map.mp hc
      have hq1 : q ∈ (top :: rest).filter (fun q => q.handRank.score == best) := hqf
      rw [← htop] at hq1
      have hq2 : q ∈ scored.filter (fun q => q.handRank.score == best) :=
        hfperm.mem_iff.mp hq1
      rw [List.mem_filter] at hq2
      obtain ⟨p', hp'nf, hp'id, hp'hr⟩ := scoreSeats_mem_right _ _ _ hscore q hq2.1
      have hp'mem : p' ∈ state.players := List.mem_of_mem_filter hp'nf
      have hpeq : p' = state.players.getD i defaultPlayer := by
        apply List.inj_on_of_nodup_map hids hp'mem hpm
        rw [← hp'id, hqid]
      rw [hpeq] at hp'nf hp'hr
      refine ⟨hp'nf, q.handRank, hp'hr, ?_⟩
      have := hq2.2
      simpa using this
  · constructor
    · intro hwin
      exfalso
      apply hc
      obtain ⟨hpnf, hr, hhr, hhrs⟩ := hwin
      obtain ⟨hr', hhr', hmem'⟩ := scoreSeats_mem_left _ _ _ hscore _ hpnf
      have hreq : hr' = hr := by
        rw [hhr] at hhr'
        exact (Option.some_inj.mp hhr').symm
      subst hreq
      have hmem2 : ({ id := (state.players.getD i defaultPlayer).id
                      name := (state.players.getD i defaultPlayer).name
                      handRank := hr' } : ScoredPlayer) ∈
          (top :: rest).filter (fun q => q.handRank.score == best) := by
        rw [← htop]
        apply hfperm.mem_iff.mpr
        rw [List.mem_filter]
        exact ⟨hmem', by simpa using hhrs⟩
      rw [List.elem_iff]
      exact List.mem_map.mpr ⟨_, hmem2, rfl⟩
    · intro _
      have hcf : (((top :: rest).filter
            (fun q => q.handRank.score == best)).map (fun w => w.id)).contains
          (state.players.getD i defaultPlayer).id = false := by simpa using hc
      simp only [List.find?, hcf]

/-- Witness for `split_pot_floor`: two seats tie a straight flush at pot
101; seat 0 receives exactly floor(101/2) = 50, the pot is zeroed and the
hand ends. -/
theorem split_pot_floor_witness :
    ∃ s, determineWinner splitPotState false = some s ∧ s.pot = 0 ∧
      s.stage = .gameOver ∧
      (s.players.getD 0 defaultPlayer).chips =
        (splitPotState.players.getD 0 defaultPlayer).chips + 50 := by
  obtain ⟨s, hs, hpot, hstage, hall⟩ :=
    split_pot_floor splitPotState splitScored 8000014 (by decide) (by decide) (by decide)
      ⟨{ id := 0, name := "P0",
         handRank := { rank := 8, name := "Straight Flush", score := 8000014 } },
       by decide, by decide⟩
      (by decide)
  refine ⟨s, hs, hpot, hstage, ?_⟩
  have h0 := (hall 0 (by decide)).1
    ⟨by decide, { rank := 8, name := "Straight Flush", score := 8000014 }, by decide, by decide⟩
  rw [h0]
  decide

/-! ### Chip conservation -/

theorem chips_sum_set (ps : List Player) (i : Nat) (q : Player) (hi : i < ps.length) :
    (((ps.set i q).map (fun p => p.chips)).sum : Int) =
      (ps.map (fun p => p.chips)).sum - (ps.getD i defaultPlayer).chips + q.chips := by
  induction ps generalizing i with
  | nil => simp at hi
  | cons p ps ih =>
    cases i with
    | zero => simp [List.set]; ring
    | succ n =>
      simp only [List.set, List.map_cons, List.sum_cons, List.getD_cons_succ]
      rw [ih n (by simpa using hi)]
      ring

theorem map_chips_clean (ps : List Player) :
    (cleanPlayers ps).map (fun p => p.chips) = ps.map (fun p => p.chips) := by
  unfold cleanPlayers
  rw [List.map_map]
  apply List.map_congr_left
  intro p _
  simp only [Function.comp]
  split_ifs <;> rfl

theorem dealHands_map_chips (ps : List Player) (d : List Card) :
    (dealHandsAux ps d).1.map (fun p => p.chips) = ps.map (fun p => p.chips) := by
  induction ps generalizing d with
  | nil => rfl
  | cons p ps ih =>
    unfold dealHandsAux
    split_ifs <;> simp [ih]

theorem postBlind_chips_sum (ps : List Player) (i : Nat) (amt : Int) (hi : i < ps.length) :
    (((postBlind ps i amt).1.map (fun p => p.chips)).sum : Int) =
      (ps.map (fun p => p.chips)).sum - (postBlind ps i amt).2 := by
  simp only [postBlind]
  split_ifs with h <;> rw [chips_sum_set _ _ _ hi] <;> ring

theorem blinds_chip_sum (ps : List Player) (i j : Nat) (hi : i < ps.length)
    (hj : j < (postBlind ps i SB_AMOUNT).1.length) :
    ((postBlind (postBlind ps i SB_AMOUNT).1 j BB_AMOUNT).1.map (fun p => p.chips)).sum +
      ((postBlind ps i SB_AMOUNT).2 + (postBlind (postBlind ps i SB_AMOUNT).1 j BB_AMOUNT).2) =
      (ps.map (fun p => p.chips)).sum := by
  rw [postBlind_chips_sum _ _ _ hj, postBlind_chips_sum _ _ _ hi]
  ring

/-- Starting a hand conserves chips: the stacks plus the freshly posted pot
equal the stacks before the hand. -/
theorem startNewHand_chipSum (deck : List Card) (prev : GameState)
    (hlen : prev.players.length = 8)
    (hnotspec : ((cleanPlayers prev.players).getD 0 defaultPlayer).status ≠ .spectator)
    (hcount :
      2 ≤ ((cleanPlayers prev.players).filter (fun p => p.status == .active)).length) :
    chipSum (startNewHand deck prev) = (prev.players.map (fun p => p.chips)).sum := by
  have hn2 : ¬(((cleanPlayers prev.players).filter
      (fun p => p.status == PlayerStatus.active)).length < 2) := by omega
  have hclen : (cleanPlayers prev.players).length = 8 := by
    simpa [cleanPlayers] using hlen
  have hdlen : (dealHandsAux (cleanPlayers prev.players) deck).1.length = 8 := by
    rw [dealHandsAux_length]
    exact hclen
  have hsb8 : (if ((cleanPlayers prev.players).filter
        (fun p => p.status == PlayerStatus.active)).length = 2 then
      skipSpectators (cleanPlayers prev.players) ((prev.dealerIndex + 1) % 8) 8
    else
      skipSpectators (dealHandsAux (cleanPlayers prev.players) deck).1
        ((skipSpectators (cleanPlayers prev.players) ((prev.dealerIndex + 1) % 8) 8 + 1) % 8)
        8) < 8 := by
    split_ifs
    · exact skipSpectators_lt _ _ _ (Nat.mod_lt _ (by omega))
    · exact skipSpectators_lt _ _ _ (Nat.mod_lt _ (by omega))
  unfold startNewHand
  rw [if_neg hnotspec, if_neg hn2]
  unfold chipSum
  dsimp only
  rw [blinds_chip_sum _ _ _ (by rw [hdlen]; exact hsb8)
    (by
      rw [postBlind_length, hdlen]
      split_ifs
      · exact Nat.mod_lt _ (by omega)
      · exact skipSpectators_lt _ _ _ (Nat.mod_lt _ (by omega)))]
  rw [dealHands_map_chips, map_chips_clean]

/-- Every action applied by `handleAction` conserves stacks plus pot. -/
theorem handleAction_chipSum (prev : GameState) (a : PlayerAction) (amt : Option Int)
    (hidx : prev.currentPlayerIndex < prev.players.length) :
    chipSum (handleActionState prev a amt) = chipSum prev := by
  have hfold : chipSum (handleActionState prev .fold amt) = chipSum prev := by
    rw [handleActionState_fold_eq]
    unfold chipSum
    dsimp only
    rw [chips_sum_set _ _ _ hidx]
    ring
  cases a with
  | fold => exact hfold
  | check =>
    by_cases h : (prev.players.getD prev.currentPlayerIndex defaultPlayer).currentBet <
        prev.currentBet
    · rw [handleActionState_check_to_fold _ _ h]
      exact hfold
    · rw [handleActionState_check_eq _ _ (by omega)]
      unfold chipSum
      dsimp only
      rw [chips_sum_set _ _ _ hidx]
      ring
  | call =>
    rw [handleActionState_call_eq]
    unfold chipSum
    dsimp only
    split_ifs <;> rw [chips_sum_set _ _ _ hidx] <;> ring
  | raise =>
    rw [handleActionState_raise_eq]
    unfold chipSum
    dsimp only
    split_ifs <;> rw [chips_sum_set _ _ _ hidx] <;> ring

/-- `determineWinner` always ends the hand: the resulting stage is
game-over. -/
theorem determineWinner_stage (state : GameState) (byFold : Bool) (s2 : GameState)
    (h : determineWinner state byFold = some s2) : s2.stage = .gameOver := by
  unfold determineWinner at h
  dsimp only at h
  split_ifs at h
  · cases hh : (notFoldedOf state.players).head? with
    | none => rw [hh] at h; exact absurd h (by simp)
    | some w =>
      rw [hh] at h
      simp only [Option.some_inj] at h
      rw [← h]
      rfl
  · cases hs : scoreSeats state.communityCards (notFoldedOf state.players) with
    | none => rw [hs] at h; exact absurd h (by simp)
    | some scored =>
      rw [hs] at h
      dsimp only at h
      cases hh : (scored.insertionSort byScoreDesc).head? with
      | none => rw [hh] at h; exact absurd h (by simp)
      | some top =>
        rw [hh] at h
        simp only [Option.some_inj] at h
        rw [← h]
        rfl

/-- Resetting street bets does not change any stack. -/
theorem resetStreet_map_chips (ps : List Player) :
    (ps.map (fun p =>
      { p with
        currentBet := 0
        lastAction := if p.status = PlayerStatus.active then none
          else p.lastAction })).map
        (fun p => p.chips) =
      ps.map (fun p => p.chips) := by
  rw [List.map_map]
  apply List.map_congr_left
  intro p _
  rfl

/-- A street advancement that does not end the hand conserves stacks plus
pot. -/
theorem nextStreet_chipSum (state : GameState) (s2 : GameState)
    (h : nextStreet state = some s2) (h2 : s2.stage ≠ .gameOver) :
    chipSum s2 = chipSum state := by
  unfold nextStreet at h
  cases hst : state.stage <;> rw [hst] at h
  case river => exact absurd (determineWinner_stage _ _ _ h) h2
  all_goals
    simp only [Option.some_inj] at h
    rw [← h]
    unfold chipSum
    dsimp only
    rw [resetStreet_map_chips]

/-- A turn advancement that does not end the hand conserves stacks plus
pot. -/
theorem advanceTurn_chipSum (prev : GameState) (s2 : GameState)
    (h : advanceTurn prev = some s2) (h2 : s2.stage ≠ .gameOver) :
    chipSum s2 = chipSum prev := by
  unfold advanceTurn at h
  dsimp only at h
  split_ifs at h
  · exact absurd (determineWinner_stage _ _ _ h) h2
  · exact nextStreet_chipSum _ _ h h2
  · exact nextStreet_chipSum _ _ h h2
  · simp only [Option.some_inj] at h
    rw [← h]
    rfl

/-- Claim C1.  Chip conservation: from the moment blinds are posted by
`startNewHand` and through every sequence of fold/check/call/raise actions
and non-distributing turn advancements, the sum of all stacks plus the pot
equals the sum of all stacks at the start of the hand. -/
theorem chip_conservation (deck : List Card) (prev : GameState) (s : GameState)
    (hlen : prev.players.length = 8)
    (hnotspec : ((cleanPlayers prev.players).getD 0 defaultPlayer).status ≠ .spectator)
    (hcount :
      2 ≤ ((cleanPlayers prev.players).filter (fun p => p.status == .active)).length)
    (hreach : HandReachable (startNewHand deck prev) s) :
    chipSum s = (prev.players.map (fun p => p.chips)).sum := by
  induction hreach with
  | refl => exact startNewHand_chipSum deck prev hlen hnotspec hcount
  | step t u hr hs ih =>
    cases hs with
    | act a amt hidx => rw [handleAction_chipSum _ _ _ hidx]; exact ih
    | adv s2 hadv hng => rw [advanceTurn_chipSum _ _ hadv hng]; exact ih

/-- Witness for `chip_conservation`: one fold applied after dealing the
`headsUpGapPrev` hand preserves the total of 350 chips. -/
theorem chip_conservation_witness :
    chipSum (handleActionState (startNewHand createDeck headsUpGapPrev) .fold none) =
      (headsUpGapPrev.players.map (fun p => p.chips)).sum :=
  chip_conservation createDeck headsUpGapPrev _ (by decide) (by decide) (by decide)
    (HandReachable.step _ _ _ (HandReachable.refl _)
      (HandStep.act _ PlayerAction.fold none (by decide)))

/-! ### The street-bet invariant -/

theorem clean_bets (ps : List Player)
    (hstale : ∀ p ∈ ps, p.chips = 0 ∨ p.status = .bust → p.currentBet = 0) :
    ∀ q ∈ cleanPlayers ps, q.currentBet = 0 := by
  intro q hq
  unfold cleanPlayers at hq
  obtain ⟨p, hp, rfl⟩ := List.mem_map.mp hq
  split_ifs with h1 h2
  · exact hstale p hp (Or.inl h1.1)
  · exact hstale p hp (Or.inr h2)
  · rfl

theorem dealHands_bets (ps : List Player) (d : List Card) :
    ∀ q ∈ (dealHandsAux ps d).1, ∃ p ∈ ps, q.currentBet = p.currentBet := by
  induction ps generalizing d with
  | nil => intro q hq; exact absurd hq (by simp [dealHandsAux])
  | cons p ps ih =>
    intro q hq
    unfold dealHandsAux at hq
    split_ifs at hq
    · rcases List.mem_cons.mp hq with rfl | hq2
      · exact ⟨p, List.mem_cons_self _ _, rfl⟩
      · obtain ⟨p2, hp2, hb⟩ := ih _ q hq2
        exact ⟨p2, List.mem_cons_of_mem _ hp2, hb⟩
    · rcases List.mem_cons.mp hq with rfl | hq2
      · exact ⟨q, List.mem_cons_self _ _, rfl⟩
      · obtain ⟨p2, hp2, hb⟩ := ih _ q hq2
        exact ⟨p2, List.mem_cons_of_mem _ hp2, hb⟩

theorem postBlind_bets (ps : List Player) (idx : Nat) (amt : Int) :
    ∀ q ∈ (postBlind ps idx amt).1,
      q.currentBet ≤ amt ∨ ∃ p ∈ ps, q.currentBet = p.currentBet := by
  intro q hq
  simp only [postBlind] at hq
  rcases List.mem_or_eq_of_mem_set hq with hq2 | rfl
  · exact Or.inr ⟨q, hq2, rfl⟩
  · split_ifs <;> exact Or.inl (by simp [min_le_right])

/-- Blind posting establishes the street-bet invariant, provided dead seats
carry no stale street bet. -/
theorem startNewHand_betInv (deck : List Card) (prev : GameState)
    (hnotspec : ((cleanPlayers prev.players).getD 0 defaultPlayer).status ≠ .spectator)
    (hcount :
      2 ≤ ((cleanPlayers prev.players).filter (fun p => p.status == .active)).length)
    (hstale : ∀ p ∈ prev.players, p.chips = 0 ∨ p.status = .bust → p.currentBet = 0) :
    BetInv (startNewHand deck prev) := by
  have hn2 : ¬(((cleanPlayers prev.players).filter
      (fun p => p.status == PlayerStatus.active)).length < 2) := by omega
  unfold startNewHand
  rw [if_neg hnotspec, if_neg hn2]
  constructor
  · intro q hq
    dsimp only at hq ⊢
    rcases postBlind_bets _ _ _ q hq with h | ⟨p1, hp1, hb1⟩
    · exact h
    · rcases postBlind_bets _ _ _ p1 hp1 with h | ⟨p2, hp2, hb2⟩
      · rw [hb1]
        simp only [SB_AMOUNT, BB_AMOUNT] at h ⊢
        omega
      · obtain ⟨p3, hp3, hb3⟩ := dealHands_bets _ _ p2 hp2
        have h0 := clean_bets _ hstale p3 hp3
        rw [hb1, hb2, hb3, h0]
        norm_num [BB_AMOUNT]
  · norm_num [BB_AMOUNT]

/-- The street-bet invariant gives a bound on any indexed seat. -/
theorem betInv_getD (s : GameState) (h : BetInv s) (i : Nat) :
    (s.players.getD i defaultPlayer).currentBet ≤ s.currentBet := by
  by_cases hi : i < s.players.length
  · apply h.1
    rw [List.getD_eq_getElem?_getD, List.getElem?_eq_getElem hi]
    exact List.getElem_mem _
  · rw [List.getD_eq_getElem?_getD, List.getElem?_eq_none (by omega)]
    exact h.2

/-- Every action applied by `handleAction` preserves the street-bet
invariant. -/
theorem handleAction_betInv (prev : GameState) (a : PlayerAction) (amt : Option Int)
    (h : BetInv prev) : BetInv (handleActionState prev a amt) := by
  have hfold : BetInv (handleActionState prev .fold amt) := by
    rw [handleActionState_fold_eq]
    refine ⟨?_, h.2⟩
    intro q hq
    dsimp only at hq ⊢
    rcases List.mem_or_eq_of_mem_set hq with hq2 | rfl
    · exact h.1 q hq2
    · exact betInv_getD prev h _
  cases a with
  | fold => exact hfold
  | check =>
    by_cases hc : (prev.players.getD prev.currentPlayerIndex defaultPlayer).currentBet <
        prev.currentBet
    · rw [handleActionState_check_to_fold _ _ hc]
      exact hfold
    · rw [handleActionState_check_eq _ _ (by omega)]
      refine ⟨?_, h.2⟩
      intro q hq
      dsimp only at hq ⊢
      rcases List.mem_or_eq_of_mem_set hq with hq2 | rfl
      · exact h.1 q hq2
      · exact betInv_getD prev h _
  | call =>
    rw [handleActionState_call_eq]
    refine ⟨?_, h.2⟩
    intro q hq
    dsimp only at hq ⊢
    rcases List.mem_or_eq_of_mem_set hq with hq2 | rfl
    · exact h.1 q hq2
    · have hb := betInv_getD prev h prev.currentPlayerIndex
      have hm := min_le_left
        (prev.currentBet -
          (prev.players.getD prev.currentPlayerIndex defaultPlayer).currentBet)
        (prev.players.getD prev.currentPlayerIndex defaultPlayer).chips
      split_ifs <;> dsimp only <;> omega
  | raise =>
    rw [handleActionState_raise_eq]
    constructor
    · intro q hq
      dsimp only at hq ⊢
      rcases List.mem_or_eq_of_mem_set hq with hq2 | rfl
      · have := h.1 q hq2
        exact le_trans this (le_max_left _ _)
      · split_ifs <;> dsimp only <;> exact le_max_right _ _
    · dsimp only
      exact le_trans h.2 (le_max_left _ _)

/-- Pot distribution preserves the street-bet invariant. -/
theorem distributePot_betInv (state : GameState) (w : List Winner)
    (h : BetInv state) : BetInv (distributePot state w) := by
  refine ⟨?_, h.2⟩
  intro q hq
  simp only [distributePot] at hq ⊢
  obtain ⟨p, hp, rfl⟩ := List.mem_map.mp hq
  have := h.1 p hp
  cases hf : w.find? (fun w2 => w2.ids.contains p.id) <;> simp [hf] <;> exact this

/-- `determineWinner` preserves the street-bet invariant. -/
theorem determineWinner_betInv (state : GameState) (byFold : Bool) (s2 : GameState)
    (h : BetInv state) (hd : determineWinner state byFold = some s2) : BetInv s2 := by
  unfold determineWinner at hd
  dsimp only at hd
  split_ifs at hd
  · cases hh : (notFoldedOf state.players).head? with
    | none => rw [hh] at hd; exact absurd hd (by simp)
    | some w =>
      rw [hh] at hd
      simp only [Option.some_inj] at hd
      rw [← hd]
      exact distributePot_betInv _ _ h
  · cases hs : scoreSeats state.communityCards (notFoldedOf state.players) with
    | none => rw [hs] at hd; exact absurd hd (by simp)
    | some scored =>
      rw [hs] at hd
      dsimp only at hd
      cases hh : (scored.insertionSort byScoreDesc).head? with
      | none => rw [hh] at hd; exact absurd hd (by simp)
      | some top =>
        rw [hh] at hd
        simp only [Option.some_inj] at hd
        rw [← hd]
        exact distributePot_betInv _ _ h

/-- `nextStreet` re-establishes the street-bet invariant. -/
theorem nextStreet_betInv (state : GameState) (s2 : GameState)
    (h : BetInv state) (hn : nextStreet state = some s2) : BetInv s2 := by
  have hreset : ∀ q ∈ state.players.map (fun p =>
      { p with
        currentBet := 0
        lastAction := if p.status = PlayerStatus.active then none else p.lastAction }),
      q.currentBet = 0 := by
    intro q hq
    obtain ⟨p, _, rfl⟩ := List.mem_map.mp hq
    rfl
  unfold nextStreet at hn
  cases hst : state.stage <;> rw [hst] at hn
  case river =>
    apply determineWinner_betInv _ false _ _ hn
    refine ⟨?_, h.2⟩
    intro q hq
    dsimp only at hq
    rw [hreset q hq]
    exact h.2
  all_goals
    simp only [Option.some_inj] at hn
    rw [← hn]
    exact ⟨fun q hq => by rw [hreset q hq], le_refl 0⟩

/-- `advanceTurn` preserves the street-bet invariant. -/
theorem advanceTurn_betInv (prev : GameState) (s2 : GameState)
    (h : BetInv prev) (ha : advanceTurn prev = some s2) : BetInv s2 := by
  unfold advanceTurn at ha
  dsimp only at ha
  split_ifs at ha
  · exact determineWinner_betInv _ _ _ h ha
  · exact nextStreet_betInv _ _ h ha
  · exact nextStreet_betInv _ _ h ha
  · simp only [Option.some_inj] at ha
    rw [← ha]
    exact ⟨h.1, h.2⟩

/-- Claim C10.  In every state reachable within a hand — blinds posted by
`startNewHand`, then any sequence of `handleAction` applications and turn
advancements (street changes and even pot distribution included) — every
seat's current-street bet is at most the table bet-to-match.  Dead seats
must carry no stale street bet into the hand (`hstale`), which holds for
every table the engine itself produces. -/
theorem bets_le_table_bet (deck : List Card) (prev : GameState) (s : GameState)
    (hnotspec : ((cleanPlayers prev.players).getD 0 defaultPlayer).status ≠ .spectator)
    (hcount :
      2 ≤ ((cleanPlayers prev.players).filter (fun p => p.status == .active)).length)
    (hstale : ∀ p ∈ prev.players, p.chips = 0 ∨ p.status = .bust → p.currentBet = 0)
    (hreach : EngineReachable (startNewHand deck prev) s) :
    ∀ p ∈ s.players, p.currentBet ≤ s.currentBet := by
  have hinv : BetInv s := by
    induction hreach with
    | refl => exact startNewHand_betInv deck prev hnotspec hcount hstale
    | step t u hr hs ih =>
      cases hs with
      | act a amt => exact handleAction_betInv _ _ _ ih
      | adv s2 hadv => exact advanceTurn_betInv _ _ ih hadv
  exact hinv.1

/-- Witness for `bets_le_table_bet`: after the heads-up deal from
`headsUpGapPrev` and one fold, the small-blind seat's street bet of 5 is
at most the table bet of 10. -/
theorem bets_le_table_bet_witness :
    ((handleActionState (startNewHand createDeck headsUpGapPrev) .fold
        none).players.getD 0 defaultPlayer).currentBet ≤
      (handleActionState (startNewHand createDeck headsUpGapPrev) .fold
        none).currentBet :=
  bets_le_table_bet createDeck headsUpGapPrev _ (by decide) (by decide) (by decide)
    (EngineReachable.step _ _ _ (EngineReachable.refl _)
      (EngineStep.act _ PlayerAction.fold none))
    _ (by decide)

/-! ### Evaluator totality -/

theorem countValue_le (cards : List Card) (v : Nat) : countValue cards v ≤ cards.length :=
  List.length_filter_le _ _

theorem filter_ne_length (cards : List Card) (v : Nat) :
    (cards.filter (fun c => c.value != v)).length = cards.length - countValue cards v := by
  induction cards with
  | nil => rfl
  | cons c cs ih =>
    have hle := countValue_le cs v
    simp only [countValue, List.filter_cons, List.length_cons] at *
    by_cases h : c.value = v
    · have h1 : (c.value != v) = false := by simp [h]
      have h2 : (c.value == v) = true := by simp [h]
      simp only [h1, h2, Bool.false_eq_true, if_true, if_false, ite_true, ite_false,
        List.length_cons] at *
      omega
    · have h1 : (c.value != v) = true := by simpa using h
      have h2 : (c.value == v) = false := by simpa using h
      simp only [h1, h2, Bool.false_eq_true, if_true, if_false, ite_true, ite_false,
        List.length_cons] at *
      omega

/-- Membership in the three-of-a-kind key list means the value occurs
exactly three times. -/
theorem mem_threeOfAKind (cards : List Card) (t : Nat)
    (ht : t ∈ ((valueKeysAsc cards).filter
      (fun v => countValue cards v == 3)).insertionSort natDesc) :
    countValue cards t = 3 := by
  rw [List.mem_insertionSort] at ht
  have := List.of_mem_filter ht
  simpa using this

/-- The evaluator is total on 2-card and on at-least-5-card inputs: the
three-of-a-kind branch — the only branch that can crash — always finds its
two kickers there. -/
theorem evalCards_total (cards : List Card)
    (hn : cards.length = 2 ∨ 5 ≤ cards.length) :
    ∃ r, evalCards cards = some r := by
  unfold evalCards
  dsimp only
  repeat' split
  all_goals try exact ⟨_, rfl⟩
  next hscrut hmatch =>
    exfalso
    rename_i hcond
    set tlist := ((valueKeysAsc cards).filter
      (fun v => countValue cards v == 3)).insertionSort natDesc with htl
    have hpos2 : 0 < tlist.length := hcond
    have hmem : tlist.headD 0 ∈ tlist := by
      cases htl2 : tlist with
      | nil => rw [htl2] at hpos2; exact absurd hpos2 (by decide)
      | cons a as => exact List.mem_cons_self _ _
    have hcnt : countValue cards (tlist.headD 0) = 3 := mem_threeOfAKind _ _ hmem
    have hflen : (cards.filter (fun c => c.value != tlist.headD 0)).length =
        cards.length - 3 := by
      rw [filter_ne_length, hcnt]
    have hge : 3 ≤ cards.length := by
      have := countValue_le cards (tlist.headD 0)
      omega
    have h2 : 2 ≤ (cards.filter (fun c => c.value != tlist.headD 0)).length := by
      rcases hn with h | h
      · omega
      · omega
    obtain ⟨k0, k1, krest, hkk⟩ : ∃ k0 k1 krest,
        cards.filter (fun c => c.value != tlist.headD 0) = k0 :: k1 :: krest := by
      cases hk : cards.filter (fun c => c.value != tlist.headD 0) with
      | nil => rw [hk] at h2; exact absurd h2 (by decide)
      | cons k0 ks =>
        cases ks with
        | nil => rw [hk] at h2; exact absurd h2 (by simp)
        | cons k1 krest => exact ⟨k0, k1, krest, rfl⟩
    exact hmatch k0 k1 [] (by rw [hkk]; rfl)

/-- Claim C7, counterexample.  On the in-range input of 2 hole cards plus
1 community card that are three distinct deuces, `evaluateHand` crashes:
the three-of-a-kind branch reads `kickers[1].value` but only zero kickers
exist (modelled as `none`). -/
theorem evaluator_crash_cex :
    evaluateHand [⟨.hearts, "2", 2⟩, ⟨.diamonds, "2", 2⟩] [⟨.clubs, "2", 2⟩] = none := by
  decide

/-- Claim C7, amended.  For every input of 2 hole cards plus 0, 3, 4 or 5
community cards — the community sizes the game actually deals — the
evaluator returns a `HandRank` without any out-of-bounds access.  (As
stated over 0-5 community cards the claim fails: with 1 or 2 community
cards a three-of-a-kind input reaches the kicker lookups with fewer than
two kickers.) -/
theorem evaluateHand_total (hole comm : List Card) (hh : hole.length = 2)
    (hc : comm.length = 0 ∨ comm.length = 3 ∨ comm.length = 4 ∨ comm.length = 5) :
    ∃ r, evaluateHand hole comm = some r := by
  apply evalCards_total
  rw [List.length_insertionSort, List.length_append]
  omega

/-- Witness for `evaluateHand_total` at a concrete three-of-a-kind board of
7 distinct cards. -/
theorem evaluateHand_total_witness :
    ∃ r, evaluateHand [⟨.hearts, "2", 2⟩, ⟨.diamonds, "2", 2⟩]
      [⟨.clubs, "2", 2⟩, ⟨.spades, "5", 5⟩, ⟨.hearts, "7", 7⟩, ⟨.clubs, "9", 9⟩,
       ⟨.diamonds, "J", 11⟩] = some r :=
  evaluateHand_total _ _ (by decide) (by decide)

/-! ### Evaluator ordering: supporting lemmas -/

theorem weightedScore_eq (p : Nat) (l : List Card) :
    weightedScore p l = weightedVals p (l.map (fun c => c.value)) := by
  induction l generalizing p with
  | nil => rfl
  | cons c cs ih => simp [weightedScore, weightedVals, ih]

theorem straightScan_mem (l : List Nat) (a : Nat) (h : straightScan l = some a) : a ∈ l := by
  induction l with
  | nil => exact absurd h (by simp [straightScan])
  | cons b rest ih =>
    unfold straightScan at h
    split_ifs at h with h1 h2
    · simp only [Option.some_inj] at h
      rw [← h]
      exact List.mem_cons_self _ _
    · exact List.mem_cons_of_mem _ (ih h)

theorem mem_uniqueValuesDesc (cards : List Card) (v : Nat)
    (h : v ∈ uniqueValuesDesc cards) : ∃ c ∈ cards, c.value = v := by
  unfold uniqueValuesDesc at h
  rw [List.mem_insertionSort, List.mem_dedup] at h
  obtain ⟨c, hc, rfl⟩ := List.mem_map.mp h
  exact ⟨c, hc, rfl⟩

theorem mem_valueKeysAsc (cards : List Card) (v : Nat)
    (h : v ∈ valueKeysAsc cards) : ∃ c ∈ cards, c.value = v := by
  unfold valueKeysAsc at h
  rw [List.mem_insertionSort, List.mem_dedup] at h
  obtain ⟨c, hc, rfl⟩ := List.mem_map.mp h
  exact ⟨c, hc, rfl⟩

/-- Any high card reported by `isStraight` is bounded by the card values
(the ace-low 1 included). -/
theorem isStraight_le (cards : List Card) (h14 : ∀ c ∈ cards, c.value ≤ 14) (a : Nat)
    (h : isStraight cards = some a) : a ≤ 14 := by
  unfold isStraight at h
  have hm := straightScan_mem _ _ h
  split_ifs at hm
  · rcases List.mem_append.mp hm with hm2 | hm2
    · obtain ⟨c, hc, rfl⟩ := mem_uniqueValuesDesc _ _ hm2
      exact h14 c hc
    · simp only [List.mem_singleton] at hm2
      omega
  · obtain ⟨c, hc, rfl⟩ := mem_uniqueValuesDesc _ _ hm
    exact h14 c hc

/-- `isFlush` only reports a suit with at least five cards. -/
theorem isFlush_count (cards : List Card) (s : Suit) (h : isFlush cards = some s) :
    5 ≤ (cards.filter (fun c => c.suit == s)).length := by
  unfold isFlush at h
  split_ifs at h with h1 h2 h3 h4 <;>
    simp only [Option.some_inj] at h <;>
    rw [← h] <;>
    assumption

/-- The keys whose count is a given value, with their order fixed:
nodup and descending-sorted. -/
theorem keyFilter_sorted (cards : List Card) (k : Nat) :
    ((valueKeysAsc cards).filter (fun v => countValue cards v == k)).insertionSort
        natDesc |>.Sorted natDesc :=
  List.sorted_insertionSort _ _

theorem keyFilter_nodup (cards : List Card) (k : Nat) :
    (((valueKeysAsc cards).filter (fun v => countValue cards v == k)).insertionSort
        natDesc).Nodup := by
  have h1 : (valueKeysAsc cards).Nodup := by
    unfold valueKeysAsc
    exact ((List.perm_insertionSort _ _).nodup_iff).mpr (List.nodup_dedup _)
  have h2 := h1.filter (fun v => countValue cards v == k)
  exact ((List.perm_insertionSort _ _).nodup_iff).mpr h2

theorem encKey_five (vs : List Nat) : encKey (5, vs) = 5000000 + weightedVals 4 vs := by
  cases vs with
  | nil => rfl
  | cons a t =>
    cases t with
    | nil => rfl
    | cons b t2 =>
      cases t2 with
      | nil => rfl
      | cons c t3 => rfl

theorem encKey_zero (vs : List Nat) : encKey (0, vs) = weightedVals 4 vs := by
  cases vs with
  | nil => rfl
  | cons a t =>
    cases t with
    | nil => rfl
    | cons b t2 =>
      cases t2 with
      | nil => rfl
      | cons c t3 => rfl

theorem encKey_one (p : Nat) (ks : List Nat) :
    encKey (1, p :: ks) = 1000000 + p * 5000 + weightedVals 2 ks := by
  cases ks with
  | nil => rfl
  | cons a t =>
    cases t with
    | nil => rfl
    | cons b t2 =>
      cases t2 with
      | nil => rfl
      | cons c t3 => rfl

/-- The evaluator's integer score is exactly the category encoding
`encKey` of the spec-side category key: both definitions classify through
the same detection chain, and each branch's score formula is the encoding
of that branch's deciding values. -/
theorem evalCards_score_encKey (cards : List Card) (r : HandRank) (k : Nat × List Nat)
    (he : evalCards cards = some r) (hk : specCardsKey cards = some k) :
    r.score = encKey k := by
  unfold evalCards at he
  unfold specCardsKey at hk
  dsimp only at he hk
  cases hfs : isFlush cards with
  | some s =>
    rw [hfs] at he hk
    dsimp only at he hk
    cases hsf : isStraight (cards.filter (fun c => c.suit == s)) with
    | some sfh =>
      rw [hsf] at he hk
      dsimp only at he hk
      rw [Option.some_inj] at he hk
      subst he
      subst hk
      rfl
    | none =>
      rw [hsf] at he hk
      dsimp only at he hk
      cases hf4 : (valueKeysAsc cards).find? (fun v => countValue cards v == 4) with
      | some quad =>
        rw [hf4] at he hk
        dsimp only at he hk
        rw [Option.some_inj] at he hk
        subst he
        subst hk
        rfl
      | none =>
        rw [hf4] at he hk
        dsimp only at he hk
        by_cases hFH : 0 < (((valueKeysAsc cards).filter
              (fun v => countValue cards v == 3)).insertionSort natDesc).length ∧
            (1 < (((valueKeysAsc cards).filter
              (fun v => countValue cards v == 3)).insertionSort natDesc).length ∨
             0 < (((valueKeysAsc cards).filter
              (fun v => countValue cards v == 2)).insertionSort natDesc).length)
        · rw [if_pos hFH] at he hk
          rw [Option.some_inj] at he hk
          subst he
          subst hk
          rfl
        · rw [if_neg hFH] at he hk
          rw [Option.some_inj] at he hk
          subst he
          subst hk
          rw [encKey_five, weightedScore_eq]
  | none =>
    rw [hfs] at he hk
    dsimp only at he hk
    cases hf4 : (valueKeysAsc cards).find? (fun v => countValue cards v == 4) with
    | some quad =>
      rw [hf4] at he hk
      dsimp only at he hk
      rw [Option.some_inj] at he hk
      subst he
      subst hk
      rfl
    | none =>
      rw [hf4] at he hk
      dsimp only at he hk
      by_cases hFH : 0 < (((valueKeysAsc cards).filter
            (fun v => countValue cards v == 3)).insertionSort natDesc).length ∧
          (1 < (((valueKeysAsc cards).filter
            (fun v => countValue cards v == 3)).insertionSort natDesc).length ∨
           0 < (((valueKeysAsc cards).filter
            (fun v => countValue cards v == 2)).insertionSort natDesc).length)
      · rw [if_pos hFH] at he hk
        rw [Option.some_inj] at he hk
        subst he
        subst hk
        rfl
      · rw [if_neg hFH] at he hk
        cases hst : isStraight cards with
        | some high =>
          rw [hst] at he hk
          dsimp only at he hk
          rw [Option.some_inj] at he hk
          subst he
          subst hk
          rfl
        | none =>
          rw [hst] at he hk
          dsimp only at he hk
          by_cases htr : 0 < (((valueKeysAsc cards).filter
              (fun v => countValue cards v == 3)).insertionSort natDesc).length
          · rw [if_pos htr] at he hk
            cases hk2 : (cards.filter (fun c => c.value !=
                ((((valueKeysAsc cards).filter
                  (fun v => countValue cards v == 3)).insertionSort
                    natDesc).headD 0))).take 2 with
            | nil =>
              rw [hk2] at he
              exact absurd he (by simp)
            | cons k0 tail =>
              cases tail with
              | nil =>
                rw [hk2] at he
                exact absurd he (by simp)
              | cons k1 rest =>
                rw [hk2] at he hk
                dsimp only at he hk
                rw [Option.some_inj] at he hk
                subst he
                subst hk
                rfl
          · rw [if_neg htr] at he hk
            by_cases hp2 : 2 ≤ (((valueKeysAsc cards).filter
                (fun v => countValue cards v == 2)).insertionSort natDesc).length
            · rw [if_pos hp2] at he hk
              rw [Option.some_inj] at he hk
              subst he
              subst hk
              rfl
            · rw [if_neg hp2] at he hk
              by_cases hp1 : 0 < (((valueKeysAsc cards).filter
                  (fun v => countValue cards v == 2)).insertionSort natDesc).length
              · rw [if_pos hp1] at he hk
                rw [Option.some_inj] at he hk
                subst he
                subst hk
                rw [encKey_one, weightedScore_eq]
              · rw [if_neg hp1] at he hk
                rw [Option.some_inj] at he hk
                subst he
                subst hk
                rw [encKey_zero, weightedScore_eq]

theorem headD_mem_nat (l : List Nat) (h : 0 < l.length) : l.headD 0 ∈ l := by
  cases l with
  | nil => exact absurd h (by decide)
  | cons a t => exact List.mem_cons_self _ _

theorem getD_mem_nat (l : List Nat) (i : Nat) (h : i < l.length) : l.getD i 0 ∈ l := by
  rw [List.getD_eq_getElem?_getD, List.getElem?_eq_getElem h]
  exact List.getElem_mem _

/-- Membership in a count-filtered key list: the value has the stated
count and is a value of some card. -/
theorem mem_keyFilter (cards : List Card) (n v : Nat)
    (h : v ∈ ((valueKeysAsc cards).filter
      (fun w => countValue cards w == n)).insertionSort natDesc) :
    countValue cards v = n ∧ ∃ c ∈ cards, c.value = v := by
  rw [List.mem_insertionSort] at h
  refine ⟨by simpa using List.of_mem_filter h, ?_⟩
  exact mem_valueKeysAsc _ _ (List.mem_of_mem_filter h)

/-- With at least two pair keys, the first two entries of the descending
pair list are strictly descending. -/
theorem pairs_strict_desc (cards : List Card)
    (h : 2 ≤ (((valueKeysAsc cards).filter
      (fun v => countValue cards v == 2)).insertionSort natDesc).length) :
    (((valueKeysAsc cards).filter (fun v => countValue cards v == 2)).insertionSort
        natDesc).getD 1 0 <
      (((valueKeysAsc cards).filter (fun v => countValue cards v == 2)).insertionSort
        natDesc).getD 0 0 := by
  have hsorted := keyFilter_sorted cards 2
  have hnodup := keyFilter_nodup cards 2
  cases hl2 : ((valueKeysAsc cards).filter
      (fun v => countValue cards v == 2)).insertionSort natDesc with
  | nil => rw [hl2] at h; exact absurd h (by decide)
  | cons a t =>
    cases t with
    | nil => rw [hl2] at h; exact absurd h (by simp)
    | cons b rest =>
      rw [hl2] at hsorted hnodup
      have hab : natDesc a b :=
        (List.sorted_cons.mp hsorted).1 b (List.mem_cons_self _ _)
      have hne : a ≠ b := by
        have := (List.nodup_cons.mp hnodup).1
        intro hcon
        exact this (hcon ▸ List.mem_cons_self _ _)
      unfold natDesc at hab
      simp only [List.getD_cons_zero, List.getD_cons_succ]
      omega

/-- Keys produced by `specCardsKey` from well-formed 7-card inputs are
well-formed: category at most 8, the category's arity of deciding values,
every deciding value at most 14, and for two pair the two pair values are
distinct card values in descending order. -/
theorem specCardsKey_good (cards : List Card) (k : Nat × List Nat)
    (hwf : ∀ c ∈ cards, 2 ≤ c.value ∧ c.value ≤ 14)
    (hlen : cards.length = 7)
    (hk : specCardsKey cards = some k) : GoodKey k := by
  have hwf14 : ∀ c ∈ cards, c.value ≤ 14 := fun c hc => (hwf c hc).2
  unfold specCardsKey at hk
  dsimp only at hk
  cases hfs : isFlush cards with
  | some s =>
    rw [hfs] at hk
    dsimp only at hk
    cases hsf : isStraight (cards.filter (fun c => c.suit == s)) with
    | some sfh =>
      rw [hsf] at hk
      dsimp only at hk
      rw [Option.some_inj] at hk
      subst hk
      have hb : sfh ≤ 14 :=
        isStraight_le _ (fun c hc => hwf14 c (List.mem_of_mem_filter hc)) _ hsf
      refine ⟨by norm_num, by rfl, ?_, by intro h; simp at h⟩
      intro v hv
      simp only [List.mem_singleton] at hv
      omega
    | none =>
      rw [hsf] at hk
      dsimp only at hk
      cases hf4 : (valueKeysAsc cards).find? (fun v => countValue cards v == 4) with
      | some quad =>
        rw [hf4] at hk
        dsimp only at hk
        have hqb : quad ≤ 14 := by
          obtain ⟨c, hc, rfl⟩ :=
            mem_valueKeysAsc _ _ (List.mem_of_find?_eq_some hf4)
          exact hwf14 c hc
        cases hkc : cards.find? (fun c => c.value != quad) with
        | some c0 =>
          rw [hkc] at hk
          dsimp only at hk
          rw [Option.some_inj] at hk
          subst hk
          have hcb : c0.value ≤ 14 := hwf14 c0 (List.mem_of_find?_eq_some hkc)
          refine ⟨by norm_num, by rfl, ?_, by intro h; simp at h⟩
          intro v hv
          simp only [List.mem_cons, List.mem_singleton, List.not_mem_nil, or_false] at hv
          rcases hv with rfl | rfl <;> omega
        | none =>
          rw [hkc] at hk
          dsimp only at hk
          rw [Option.some_inj] at hk
          subst hk
          refine ⟨by norm_num, by rfl, ?_, by intro h; simp at h⟩
          intro v hv
          simp only [List.mem_cons, List.mem_singleton, List.not_mem_nil, or_false] at hv
          rcases hv with rfl | rfl <;> omega
      | none =>
        rw [hf4] at hk
        dsimp only at hk
        by_cases hFH : 0 < (((valueKeysAsc cards).filter
              (fun v => countValue cards v == 3)).insertionSort natDesc).length ∧
            (1 < (((valueKeysAsc cards).filter
              (fun v => countValue cards v == 3)).insertionSort natDesc).length ∨
             0 < (((valueKeysAsc cards).filter
              (fun v => countValue cards v == 2)).insertionSort natDesc).length)
        · rw [if_pos hFH] at hk
          have htb : (((valueKeysAsc cards).filter
              (fun v => countValue cards v == 3)).insertionSort natDesc).headD 0 ≤ 14 := by
            obtain ⟨-, c, hc, hv⟩ := mem_keyFilter cards 3 _ (headD_mem_nat _ hFH.1)
            rw [← hv]
            exact hwf14 c hc
          by_cases hp : 1 < (((valueKeysAsc cards).filter
              (fun v => countValue cards v == 3)).insertionSort natDesc).length
          · rw [if_pos hp] at hk
            rw [Option.some_inj] at hk
            subst hk
            have hpb : (((valueKeysAsc cards).filter
                (fun v => countValue cards v == 3)).insertionSort natDesc).getD 1 0 ≤ 14 := by
              obtain ⟨-, c, hc, hv⟩ := mem_keyFilter cards 3 _ (getD_mem_nat _ 1 hp)
              rw [← hv]
              exact hwf14 c hc
            refine ⟨by norm_num, by rfl, ?_, by intro h; simp at h⟩
            intro v hv
            simp only [List.mem_cons, List.mem_singleton, List.not_mem_nil, or_false] at hv
            rcases hv with rfl | rfl <;> omega
          · rw [if_neg hp] at hk
            rw [Option.some_inj] at hk
            subst hk
            have hpos : 0 < (((valueKeysAsc cards).filter
                (fun v => countValue cards v == 2)).insertionSort natDesc).length :=
              hFH.2.resolve_left hp
            have hpb : (((valueKeysAsc cards).filter
                (fun v => countValue cards v == 2)).insertionSort natDesc).headD 0 ≤ 14 := by
              obtain ⟨-, c, hc, hv⟩ := mem_keyFilter cards 2 _ (headD_mem_nat _ hpos)
              rw [← hv]
              exact hwf14 c hc
            refine ⟨by norm_num, by rfl, ?_, by intro h; simp at h⟩
            intro v hv
            simp only [List.mem_cons, List.mem_singleton, List.not_mem_nil, or_false] at hv
            rcases hv with rfl | rfl <;> omega
        · rw [if_neg hFH] at hk
          rw [Option.some_inj] at hk
          subst hk
          have hfc := isFlush_count cards s hfs
          refine ⟨by norm_num, ?_, ?_, by intro h; simp at h⟩
          · simp only [List.length_map, List.length_take, keyArity]
            omega
          · intro v hv
            obtain ⟨c, hc, rfl⟩ := List.mem_map.mp hv
            exact hwf14 c (List.mem_of_mem_filter (List.mem_of_mem_take hc))
  | none =>
    rw [hfs] at hk
    dsimp only at hk
    cases hf4 : (valueKeysAsc cards).find? (fun v => countValue cards v == 4) with
    | some quad =>
      rw [hf4] at hk
      dsimp only at hk
      have hqb : quad ≤ 14 := by
        obtain ⟨c, hc, rfl⟩ :=
          mem_valueKeysAsc _ _ (List.mem_of_find?_eq_some hf4)
        exact hwf14 c hc
      cases hkc : cards.find? (fun c => c.value != quad) with
      | some c0 =>
        rw [hkc] at hk
        dsimp only at hk
        rw [Option.some_inj] at hk
        subst hk
        have hcb : c0.value ≤ 14 := hwf14 c0 (List.mem_of_find?_eq_some hkc)
        refine ⟨by norm_num, by rfl, ?_, by intro h; simp at h⟩
        intro v hv
        simp only [List.mem_cons, List.mem_singleton, List.not_mem_nil, or_false] at hv
        rcases hv with rfl | rfl <;> omega
      | none =>
        rw [hkc] at hk
        dsimp only at hk
        rw [Option.some_inj] at hk
        subst hk
        refine ⟨by norm_num, by rfl, ?_, by intro h; simp at h⟩
        intro v hv
        simp only [List.mem_cons, List.mem_singleton, List.not_mem_nil, or_false] at hv
        rcases hv with rfl | rfl <;> omega
    | none =>
      rw [hf4] at hk
      dsimp only at hk
      by_cases hFH : 0 < (((valueKeysAsc cards).filter
            (fun v => countValue cards v == 3)).insertionSort natDesc).length ∧
          (1 < (((valueKeysAsc cards).filter
            (fun v => countValue cards v == 3)).insertionSort natDesc).length ∨
           0 < (((valueKeysAsc cards).filter
            (fun v => countValue cards v == 2)).insertionSort natDesc).length)
      · rw [if_pos hFH] at hk
        have htb : (((valueKeysAsc cards).filter
            (fun v => countValue cards v == 3)).insertionSort natDesc).headD 0 ≤ 14 := by
          obtain ⟨-, c, hc, hv⟩ := mem_keyFilter cards 3 _ (headD_mem_nat _ hFH.1)
          rw [← hv]
          exact hwf14 c hc
        by_cases hp : 1 < (((valueKeysAsc cards).filter
            (fun v => countValue cards v == 3)).insertionSort natDesc).length
        · rw [if_pos hp] at hk
          rw [Option.some_inj] at hk
          subst hk
          have hpb : (((valueKeysAsc cards).filter
              (fun v => countValue cards v == 3)).insertionSort natDesc).getD 1 0 ≤ 14 := by
            obtain ⟨-, c, hc, hv⟩ := mem_keyFilter cards 3 _ (getD_mem_nat _ 1 hp)
            rw [← hv]
            exact hwf14 c hc
          refine ⟨by norm_num, by rfl, ?_, by intro h; simp at h⟩
          intro v hv
          simp only [List.mem_cons, List.mem_singleton, List.not_mem_nil, or_false] at hv
          rcases hv with rfl | rfl <;> omega
        · rw [if_neg hp] at hk
          rw [Option.some_inj] at hk
          subst hk
          have hpos : 0 < (((valueKeysAsc cards).filter
              (fun v => countValue cards v == 2)).insertionSort natDesc).length :=
            hFH.2.resolve_left hp
          have hpb : (((valueKeysAsc cards).filter
              (fun v => countValue cards v == 2)).insertionSort natDesc).headD 0 ≤ 14 := by
            obtain ⟨-, c, hc, hv⟩ := mem_keyFilter cards 2 _ (headD_mem_nat _ hpos)
            rw [← hv]
            exact hwf14 c hc
          refine ⟨by norm_num, by rfl, ?_, by intro h; simp at h⟩
          intro v hv
          simp only [List.mem_cons, List.mem_singleton, List.not_mem_nil, or_false] at hv
          rcases hv with rfl | rfl <;> omega
      · rw [if_neg hFH] at hk
        cases hst : isStraight cards with
        | some high =>
          rw [hst] at hk
          dsimp only at hk
          rw [Option.some_inj] at hk
          subst hk
          have hb : high ≤ 14 := isStraight_le _ hwf14 _ hst
          refine ⟨by norm_num, by rfl, ?_, by intro h; simp at h⟩
          intro v hv
          simp only [List.mem_singleton] at hv
          omega
        | none =>
          rw [hst] at hk
          dsimp only at hk
          by_cases htr : 0 < (((valueKeysAsc cards).filter
              (fun v => countValue cards v == 3)).insertionSort natDesc).length
          · rw [if_pos htr] at hk
            have htb : (((valueKeysAsc cards).filter
                (fun v => countValue cards v == 3)).insertionSort natDesc).headD 0 ≤ 14 := by
              obtain ⟨-, c, hc, hv⟩ := mem_keyFilter cards 3 _ (headD_mem_nat _ htr)
              rw [← hv]
              exact hwf14 c hc
            cases hk2 : (cards.filter (fun c => c.value !=
                ((((valueKeysAsc cards).filter
                  (fun v => countValue cards v == 3)).insertionSort
                    natDesc).headD 0))).take 2 with
            | nil =>
              rw [hk2] at hk
              exact absurd hk (by simp)
            | cons k0 tail =>
              cases tail with
              | nil =>
                rw [hk2] at hk
                exact absurd hk (by simp)
              | cons k1 rest =>
                rw [hk2] at hk
                dsimp only at hk
                rw [Option.some_inj] at hk
                subst hk
                have hm0 : k0 ∈ cards := by
                  have : k0 ∈ (cards.filter (fun c => c.value !=
                      ((((valueKeysAsc cards).filter
                        (fun v => countValue cards v == 3)).insertionSort
                          natDesc).headD 0))).take 2 := by
                    rw [hk2]
                    exact List.mem_cons_self _ _
                  exact List.mem_of_mem_filter (List.mem_of_mem_take this)
                have hm1 : k1 ∈ cards := by
                  have : k1 ∈ (cards.filter (fun c => c.value !=
                      ((((valueKeysAsc cards).filter
                        (fun v => countValue cards v == 3)).insertionSort
                          natDesc).headD 0))).take 2 := by
                    rw [hk2]
                    exact List.mem_cons_of_mem _ (List.mem_cons_self _ _)
                  exact List.mem_of_mem_filter (List.mem_of_mem_take this)
                have hb0 := hwf14 k0 hm0
                have hb1 := hwf14 k1 hm1
                refine ⟨by norm_num, by rfl, ?_, by intro h; simp at h⟩
                intro v hv
                simp only [List.mem_cons, List.mem_singleton, List.not_mem_nil,
                  or_false] at hv
                rcases hv with rfl | rfl | rfl <;> omega
          · rw [if_neg htr] at hk
            by_cases hp2 : 2 ≤ (((valueKeysAsc cards).filter
                (fun v => countValue cards v == 2)).insertionSort natDesc).length
            · rw [if_pos hp2] at hk
              cases hkc : cards.find? (fun c =>
                  c.value != (((valueKeysAsc cards).filter
                    (fun v => countValue cards v == 2)).insertionSort natDesc).getD 0 0 &&
                  c.value != (((valueKeysAsc cards).filter
                    (fun v => countValue cards v == 2)).insertionSort natDesc).getD 1 0) with
              | some c0 =>
                rw [hkc] at hk
                dsimp only at hk
                rw [Option.some_inj] at hk
                subst hk
                have hcb : c0.value ≤ 14 := hwf14 c0 (List.mem_of_find?_eq_some hkc)
                obtain ⟨hc1, c1, hmc1, hv1⟩ :=
                  mem_keyFilter cards 2 _ (getD_mem_nat _ 0 (by omega))
                obtain ⟨hc2, c2, hmc2, hv2⟩ :=
                  mem_keyFilter cards 2 _ (getD_mem_nat _ 1 (by omega))
                have hlt := pairs_strict_desc cards (by omega)
                refine ⟨by norm_num, by rfl, ?_, ?_⟩
                · intro v hv
                  simp only [List.mem_cons, List.mem_singleton, List.not_mem_nil,
                    or_false] at hv
                  have := hwf c1 hmc1
                  have := hwf c2 hmc2
                  rcases hv with rfl | rfl | rfl <;> omega
                · intro _
                  have h1 := (hwf c2 hmc2).1
                  constructor
                  · omega
                  · exact hlt
              | none =>
                rw [hkc] at hk
                dsimp only at hk
                rw [Option.some_inj] at hk
                subst hk
                obtain ⟨hc1, c1, hmc1, hv1⟩ :=
                  mem_keyFilter cards 2 _ (getD_mem_nat _ 0 (by omega))
                obtain ⟨hc2, c2, hmc2, hv2⟩ :=
                  mem_keyFilter cards 2 _ (getD_mem_nat _ 1 (by omega))
                have hlt := pairs_strict_desc cards (by omega)
                refine ⟨by norm_num, by rfl, ?_, ?_⟩
                · intro v hv
                  simp only [List.mem_cons, List.mem_singleton, List.not_mem_nil,
                    or_false] at hv
                  have := hwf c1 hmc1
                  have := hwf c2 hmc2
                  rcases hv with rfl | rfl | rfl <;> omega
                · intro _
                  have h1 := (hwf c2 hmc2).1
                  constructor
                  · omega
                  · exact hlt
            · rw [if_neg hp2] at hk
              by_cases hp1 : 0 < (((valueKeysAsc cards).filter
                  (fun v => countValue cards v == 2)).insertionSort natDesc).length
              · rw [if_pos hp1] at hk
                rw [Option.some_inj] at hk
                subst hk
                obtain ⟨hcnt, c1, hmc1, hv1⟩ :=
                  mem_keyFilter cards 2 _ (getD_mem_nat _ 0 hp1)
                have hflen : (cards.filter (fun c => c.value !=
                    (((valueKeysAsc cards).filter
                      (fun v => countValue cards v == 2)).insertionSort
                        natDesc).getD 0 0)).length = 5 := by
                  rw [filter_ne_length, hcnt, hlen]
                refine ⟨by norm_num, ?_, ?_, by intro h; simp at h⟩
                · simp only [List.length_cons, List.length_map, List.length_take,
                    hflen, keyArity]
                  omega
                · intro v hv
                  simp only [List.mem_cons] at hv
                  rcases hv with rfl | hv
                  · rw [← hv1]
                    exact hwf14 c1 hmc1
                  · obtain ⟨c, hc, rfl⟩ := List.mem_map.mp hv
                    exact hwf14 c (List.mem_of_mem_filter (List.mem_of_mem_take hc))
              · rw [if_neg hp1] at hk
                rw [Option.some_inj] at hk
                subst hk
                refine ⟨by norm_num, ?_, ?_, by intro h; simp at h⟩
                · simp only [List.length_map, List.length_take, hlen, keyArity]
                  omega
                · intro v hv
                  obtain ⟨c, hc, rfl⟩ := List.mem_map.mp hv
                  exact hwf14 c (List.mem_of_mem_take hc)

theorem encKey_eight (a : Nat) : encKey (8, [a]) = 8000000 + a := rfl

theorem encKey_seven (a b : Nat) : encKey (7, [a, b]) = 7000000 + a * 100 + b := rfl

theorem encKey_six (a b : Nat) : encKey (6, [a, b]) = 6000000 + a * 100 + b := rfl

theorem encKey_four (a : Nat) : encKey (4, [a]) = 4000000 + a := rfl

theorem encKey_three (a b c : Nat) :
    encKey (3, [a, b, c]) = 3000000 + a * 1000 + b * 15 + c := rfl

theorem encKey_two (a b c : Nat) :
    encKey (2, [a, b, c]) = 2000000 + a * 200 + b * 15 + c := rfl

theorem list_len4 (l : List Nat) (h : l.length = 4) :
    ∃ a b c d, l = [a, b, c, d] := by
  cases l with
  | nil => simp at h
  | cons a t =>
    obtain ⟨b, c, d, rfl⟩ := List.length_eq_three.mp (by simpa using h)
    exact ⟨a, b, c, d, rfl⟩

theorem list_len5 (l : List Nat) (h : l.length = 5) :
    ∃ a b c d e, l = [a, b, c, d, e] := by
  cases l with
  | nil => simp at h
  | cons a t =>
    obtain ⟨b, c, d, e, rfl⟩ := list_len4 t (by simpa using h)
    exact ⟨a, b, c, d, e, rfl⟩

/-- Every well-formed key's encoding lies inside its category's band of
width 1,000,000. -/
theorem encKey_bounds (k : Nat × List Nat) (h : GoodKey k) :
    1000000 * k.1 ≤ encKey k ∧ encKey k < 1000000 * k.1 + 1000000 := by
  obtain ⟨c, vs⟩ := k
  obtain ⟨hc, ha, hb, -⟩ := h
  simp only at hc ha hb ⊢
  interval_cases c <;> simp only [keyArity] at ha
  · obtain ⟨a, b, c, d, e, rfl⟩ := list_len5 vs ha
    have h1 := hb a (by simp)
    have h2 := hb b (by simp)
    have h3 := hb c (by simp)
    have h4 := hb d (by simp)
    have h5 := hb e (by simp)
    rw [encKey_zero]
    norm_num [weightedVals]
    omega
  · cases vs with
    | nil => simp at ha
    | cons p ks =>
      obtain ⟨a, b, c, rfl⟩ := List.length_eq_three.mp (by simpa using ha)
      have h0 := hb p (by simp)
      have h1 := hb a (by simp)
      have h2 := hb b (by simp)
      have h3 := hb c (by simp)
      rw [encKey_one]
      norm_num [weightedVals]
      omega
  · obtain ⟨a, b, c, rfl⟩ := List.length_eq_three.mp ha
    have h1 := hb a (by simp)
    have h2 := hb b (by simp)
    have h3 := hb c (by simp)
    rw [encKey_two]
    omega
  · obtain ⟨a, b, c, rfl⟩ := List.length_eq_three.mp ha
    have h1 := hb a (by simp)
    have h2 := hb b (by simp)
    have h3 := hb c (by simp)
    rw [encKey_three]
    omega
  · obtain ⟨a, rfl⟩ := List.length_eq_one.mp ha
    have h1 := hb a (by simp)
    rw [encKey_four]
    omega
  · obtain ⟨a, b, c, d, e, rfl⟩ := list_len5 vs ha
    have h1 := hb a (by simp)
    have h2 := hb b (by simp)
    have h3 := hb c (by simp)
    have h4 := hb d (by simp)
    have h5 := hb e (by simp)
    rw [encKey_five]
    norm_num [weightedVals]
    omega
  · obtain ⟨a, b, rfl⟩ := List.length_eq_two.mp ha
    have h1 := hb a (by simp)
    have h2 := hb b (by simp)
    rw [encKey_six]
    omega
  · obtain ⟨a, b, rfl⟩ := List.length_eq_two.mp ha
    have h1 := hb a (by simp)
    have h2 := hb b (by simp)
    rw [encKey_seven]
    omega
  · obtain ⟨a, rfl⟩ := List.length_eq_one.mp ha
    have h1 := hb a (by simp)
    rw [encKey_eight]
    omega

/-- Strict monotonicity of the category encoding: a strictly weaker key
(category first, then deciding values lexicographically) always encodes to
a strictly smaller score. -/
theorem encKey_strict_mono (x y : Nat × List Nat) (hx : GoodKey x) (hy : GoodKey y)
    (hlt : specKeyLt x y) : encKey x < encKey y := by
  rcases hlt with hcc | ⟨hceq, hlex⟩
  · have h1 := (encKey_bounds x hx).2
    have h2 := (encKey_bounds y hy).1
    omega
  · obtain ⟨cx, vx⟩ := x
    obtain ⟨cy, vy⟩ := y
    simp only at hceq hlex
    subst hceq
    obtain ⟨hcx, hax, hbx, hpx⟩ := hx
    obtain ⟨hcy, hay, hby, hpy⟩ := hy
    simp only at hax hbx hpx hay hby hpy
    interval_cases cx <;> simp only [keyArity] at hax hay
    · obtain ⟨a, b, c, d, e, rfl⟩ := list_len5 vx hax
      obtain ⟨a2, b2, c2, d2, e2, rfl⟩ := list_len5 vy hay
      simp only [lexLtVals, Bool.or_eq_true, Bool.and_eq_true, decide_eq_true_eq,
        beq_iff_eq, Bool.false_eq_true, and_false, or_false] at hlex
      have i1 := hbx a (by simp)
      have i2 := hbx b (by simp)
      have i3 := hbx c (by simp)
      have i4 := hbx d (by simp)
      have i5 := hbx e (by simp)
      have j1 := hby a2 (by simp)
      have j2 := hby b2 (by simp)
      have j3 := hby c2 (by simp)
      have j4 := hby d2 (by simp)
      have j5 := hby e2 (by simp)
      rw [encKey_zero, encKey_zero]
      norm_num [weightedVals]
      omega
    · cases vx with
      | nil => simp at hax
      | cons p ks =>
        cases vy with
        | nil => simp at hay
        | cons p2 ks2 =>
          obtain ⟨a, b, c, rfl⟩ := List.length_eq_three.mp (by simpa using hax)
          obtain ⟨a2, b2, c2, rfl⟩ := List.length_eq_three.mp (by simpa using hay)
          simp only [lexLtVals, Bool.or_eq_true, Bool.and_eq_true, decide_eq_true_eq,
            beq_iff_eq, Bool.false_eq_true, and_false, or_false] at hlex
          have i0 := hbx p (by simp)
          have i1 := hbx a (by simp)
          have i2 := hbx b (by simp)
          have i3 := hbx c (by simp)
          have j0 := hby p2 (by simp)
          have j1 := hby a2 (by simp)
          have j2 := hby b2 (by simp)
          have j3 := hby c2 (by simp)
          rw [encKey_one, encKey_one]
          norm_num [weightedVals]
          omega
    · obtain ⟨a, b, c, rfl⟩ := List.length_eq_three.mp hax
      obtain ⟨a2, b2, c2, rfl⟩ := List.length_eq_three.mp hay
      simp only [lexLtVals, Bool.or_eq_true, Bool.and_eq_true, decide_eq_true_eq,
        beq_iff_eq, Bool.false_eq_true, and_false, or_false] at hlex
      have i1 := hbx a (by simp)
      have i2 := hbx b (by simp)
      have i3 := hbx c (by simp)
      have j1 := hby a2 (by simp)
      have j2 := hby b2 (by simp)
      have j3 := hby c2 (by simp)
      obtain ⟨hq2, hqlt⟩ := hpy rfl
      obtain ⟨hx2, hxlt⟩ := hpx rfl
      rw [encKey_two, encKey_two]
      omega
    · obtain ⟨a, b, c, rfl⟩ := List.length_eq_three.mp hax
      obtain ⟨a2, b2, c2, rfl⟩ := List.length_eq_three.mp hay
      simp only [lexLtVals, Bool.or_eq_true, Bool.and_eq_true, decide_eq_true_eq,
        beq_iff_eq, Bool.false_eq_true, and_false, or_false] at hlex
      have i1 := hbx a (by simp)
      have i2 := hbx b (by simp)
      have i3 := hbx c (by simp)
      have j1 := hby a2 (by simp)
      have j2 := hby b2 (by simp)
      have j3 := hby c2 (by simp)
      rw [encKey_three, encKey_three]
      omega
    · obtain ⟨a, rfl⟩ := List.length_eq_one.mp hax
      obtain ⟨a2, rfl⟩ := List.length_eq_one.mp hay
      simp only [lexLtVals, Bool.or_eq_true, Bool.and_eq_true, decide_eq_true_eq,
        beq_iff_eq, Bool.false_eq_true, and_false, or_false] at hlex
      rw [encKey_four, encKey_four]
      omega
    · obtain ⟨a, b, c, d, e, rfl⟩ := list_len5 vx hax
      obtain ⟨a2, b2, c2, d2, e2, rfl⟩ := list_len5 vy hay
      simp only [lexLtVals, Bool.or_eq_true, Bool.and_eq_true, decide_eq_true_eq,
        beq_iff_eq, Bool.false_eq_true, and_false, or_false] at hlex
      have i1 := hbx a (by simp)
      have i2 := hbx b (by simp)
      have i3 := hbx c (by simp)
      have i4 := hbx d (by simp)
      have i5 := hbx e (by simp)
      have j1 := hby a2 (by simp)
      have j2 := hby b2 (by simp)
      have j3 := hby c2 (by simp)
      have j4 := hby d2 (by simp)
      have j5 := hby e2 (by simp)
      rw [encKey_five, encKey_five]
      norm_num [weightedVals]
      omega
    · obtain ⟨a, b, rfl⟩ := List.length_eq_two.mp hax
      obtain ⟨a2, b2, rfl⟩ := List.length_eq_two.mp hay
      simp only [lexLtVals, Bool.or_eq_true, Bool.and_eq_true, decide_eq_true_eq,
        beq_iff_eq, Bool.false_eq_true, and_false, or_false] at hlex
      have i1 := hbx a (by simp)
      have i2 := hbx b (by simp)
      have j1 := hby a2 (by simp)
      have j2 := hby b2 (by simp)
      rw [encKey_six, encKey_six]
      omega
    · obtain ⟨a, b, rfl⟩ := List.length_eq_two.mp hax
      obtain ⟨a2, b2, rfl⟩ := List.length_eq_two.mp hay
      simp only [lexLtVals, Bool.or_eq_true, Bool.and_eq_true, decide_eq_true_eq,
        beq_iff_eq, Bool.false_eq_true, and_false, or_false] at hlex
      have i1 := hbx a (by simp)
      have i2 := hbx b (by simp)
      have j1 := hby a2 (by simp)
      have j2 := hby b2 (by simp)
      rw [encKey_seven, encKey_seven]
      omega
    · obtain ⟨a, rfl⟩ := List.length_eq_one.mp hax
      obtain ⟨a2, rfl⟩ := List.length_eq_one.mp hay
      simp only [lexLtVals, Bool.or_eq_true, Bool.and_eq_true, decide_eq_true_eq,
        beq_iff_eq, Bool.false_eq_true, and_false, or_false] at hlex
      rw [encKey_eight, encKey_eight]
      omega

/-- **C2** (evaluator total ordering). For any two 7-card inputs to
`evaluateHand` (2 hole cards plus 5 community cards, card values in the
legal range 2..14) on which the evaluator returns a score and the spec's
section-4.2 rules assign a category key: if hand B is strictly weaker than
hand A under the category-then-kickers comparison, then B's score is
strictly below A's; and if the two hands are of equal strength (identical
category and deciding values, even across different card sets), the scores
coincide. -/
theorem evaluator_total_ordering
    (holeA commA holeB commB : List Card)
    (hwfA : ∀ c ∈ holeA ++ commA, 2 ≤ c.value ∧ c.value ≤ 14)
    (hwfB : ∀ c ∈ holeB ++ commB, 2 ≤ c.value ∧ c.value ≤ 14)
    (hhA : holeA.length = 2) (hcA : commA.length = 5)
    (hhB : holeB.length = 2) (hcB : commB.length = 5)
    (rA rB : HandRank) (kA kB : Nat × List Nat)
    (heA : evaluateHand holeA commA = some rA)
    (heB : evaluateHand holeB commB = some rB)
    (hkA : specHandKey holeA commA = some kA)
    (hkB : specHandKey holeB commB = some kB) :
    (specKeyLt kB kA → rB.score < rA.score) ∧ (kA = kB → rA.score = rB.score) := by
  unfold evaluateHand at heA heB
  unfold specHandKey at hkA hkB
  have hscoreA : rA.score = encKey kA := evalCards_score_encKey _ rA kA heA hkA
  have hscoreB : rB.score = encKey kB := evalCards_score_encKey _ rB kB heB hkB
  have hgoodA : GoodKey kA := by
    refine specCardsKey_good _ kA ?_ ?_ hkA
    · intro c hc
      exact hwfA c ((List.perm_insertionSort byValueDesc (holeA ++ commA)).mem_iff.mp hc)
    · rw [(List.perm_insertionSort byValueDesc (holeA ++ commA)).length_eq,
        List.length_append, hhA, hcA]
  have hgoodB : GoodKey kB := by
    refine specCardsKey_good _ kB ?_ ?_ hkB
    · intro c hc
      exact hwfB c ((List.perm_insertionSort byValueDesc (holeB ++ commB)).mem_iff.mp hc)
    · rw [(List.perm_insertionSort byValueDesc (holeB ++ commB)).length_eq,
        List.length_append, hhB, hcB]
  constructor
  · intro hlt
    rw [hscoreA, hscoreB]
    exact encKey_strict_mono kB kA hgoodB hgoodA hlt
  · intro heq
    rw [hscoreA, hscoreB, heq]

/-- Witness for `evaluator_total_ordering`: aces paired against king-high
on the shared board `c2board`; the weaker hand scores strictly lower. -/
theorem evaluator_total_ordering_witness :
    ({ rank := 0, name := "High Card", score := 701242 } : HandRank).score
      < ({ rank := 1, name := "Pair", score := 1072617 } : HandRank).score :=
  (evaluator_total_ordering c2holeA c2board c2holeB c2board
    (by decide) (by decide) rfl rfl rfl rfl
    { rank := 1, name := "Pair", score := 1072617 }
    { rank := 0, name := "High Card", score := 701242 }
    (1, [14, 11, 9, 7]) (0, [13, 12, 11, 9, 7])
    rfl rfl rfl rfl).1 (Or.inl (by decide))
